import Mathlib

/-!
# Verification of `deepdict/settings.py`

A shallow embedding of the `Settings` class and its inner `Settings.Storage`
proxy class from `src/deepdict/settings.py`, together with proofs about the
spec's claims.

Modelling decisions (all taken from the source, not from the spec):

* Python values flowing through the store are modelled by `PyVal`:
  `None`, ints, strings, booleans, and references into a heap of objects.
  An object is either an ordered dictionary (`OrderedDict` as well as the
  root `JsonOrderedDict`, both of which expose plain ordered mapping
  semantics in memory) or a `Storage` instance.
* Mutable aliasing matters in this code (`Storage.__setattr__` writes the
  whole backing dict back into the parent's backing by reference), so the
  embedding threads an explicit heap: `Heap` maps natural-number addresses
  to objects, with a bump allocator.
* A `Storage` instance's `__dict__` always holds exactly the four mangled
  slots `_Storage__storage`, `_Storage__parent`, `_Storage__parent_name`
  and `_Storage__readonly`: `__init__` assigns all four, `__setattr__`
  writes other keys into the backing dict, and nothing ever deletes an
  instance attribute.  `StorageObj` is therefore a record with these four
  (arbitrary `PyVal`) fields.
* File persistence (`JsonOrderedDict.write`, the `autowrite` toggling in
  `Storage.__getattr__`) has no effect on the in-memory mapping contents,
  and the watchdog/Qt watchers are external; the watcher coordination
  *flag* `_Settings__is_watcher_on` is modelled, the file system is not.
* Exceptions (`KeyError`, `TypeError`) are modelled by `PyErr`; operations
  return the mutated heap together with `Except PyErr` of the result, so a
  raising operation still reports the partial mutations it made, exactly
  as in Python.
-/

set_option autoImplicit false

namespace DeepDict

/-- A Python value as far as this program manipulates them: `None`, scalars,
or a reference to a heap object (an ordered dict or a `Storage` instance). -/
inductive PyVal where
  | none
  | int (n : Int)
  | str (s : String)
  | bool (b : Bool)
  | dict (a : Nat)
  | storage (a : Nat)
deriving DecidableEq, Repr

/-- The entry list of an ordered dictionary: insertion-ordered key/value
pairs.  `OrderedDict` (and the root `JsonOrderedDict`) keep one entry per
key; updating an existing key keeps its position, new keys are appended. -/
abbrev Entries := List (String × PyVal)

/-- The instance `__dict__` of a `Settings.Storage` object.  In this program
it always holds exactly the four name-mangled attributes assigned in
`Storage.__init__`. -/
structure StorageObj where
  storage : PyVal
  parent : PyVal
  parentName : PyVal
  readonly : PyVal
deriving DecidableEq, Repr

/-- A heap object: an ordered dictionary or a `Storage` instance. -/
inductive Obj where
  | dict (es : Entries)
  | node (st : StorageObj)
deriving DecidableEq, Repr

/-- The heap: association list from addresses to objects plus a bump
allocator.  Every allocated address is below `next`. -/
structure Heap where
  objs : List (Nat × Obj)
  next : Nat
deriving DecidableEq, Repr

namespace Heap

def find (h : Heap) (a : Nat) : Option Obj :=
  (h.objs.find? (fun p => p.1 = a)).map (·.2)

def set (h : Heap) (a : Nat) (o : Obj) : Heap :=
  { h with objs := h.objs.map (fun p => if p.1 = a then (a, o) else p) }

def alloc (h : Heap) (o : Obj) : Heap × Nat :=
  ({ objs := (h.next, o) :: h.objs, next := h.next + 1 }, h.next)

/-- Every stored address is below the allocation pointer. -/
def bounded (h : Heap) : Prop :=
  ∀ p ∈ h.objs, p.1 < h.next

instance (h : Heap) : Decidable h.bounded := by
  unfold bounded; infer_instance

@[simp] theorem find_alloc_self (h : Heap) (o : Obj) :
    (h.alloc o).1.find (h.alloc o).2 = some o := by
  simp [alloc, find]

theorem find_alloc_ne (h : Heap) (o : Obj) {a : Nat} (ha : a ≠ h.next) :
    (h.alloc o).1.find a = h.find a := by
  simp [alloc, find, List.find?_cons, Ne.symm ha]

@[simp] theorem alloc_next (h : Heap) (o : Obj) :
    (h.alloc o).1.next = h.next + 1 := rfl

@[simp] theorem alloc_addr (h : Heap) (o : Obj) :
    (h.alloc o).2 = h.next := rfl

theorem find?_update_ne (l : List (Nat × Obj)) {a b : Nat} (o : Obj)
    (hab : a ≠ b) :
    (l.map (fun p => if p.1 = a then (a, o) else p)).find? (fun p => p.1 = b)
      = l.find? (fun p => p.1 = b) := by
  induction l with
  | nil => rfl
  | cons p rest ih =>
    by_cases hp : p.1 = a
    · simp only [List.map_cons, if_pos hp, List.find?_cons]
      rw [show (decide (a = b)) = false by simpa using hab,
          show (decide (p.1 = b)) = false by simp [hp]; simpa using hab]
      exact ih
    · simp only [List.map_cons, if_neg hp, List.find?_cons]
      by_cases hb : p.1 = b
      · simp [hb]
      · rw [show (decide (p.1 = b)) = false by simpa using hb]
        exact ih

theorem find?_update_self (l : List (Nat × Obj)) {a : Nat} (o : Obj)
    (q : Nat × Obj) (ha : l.find? (fun p => p.1 = a) = some q) :
    (l.map (fun p => if p.1 = a then (a, o) else p)).find? (fun p => p.1 = a)
      = some (a, o) := by
  induction l with
  | nil => simp at ha
  | cons p rest ih =>
    by_cases hp : p.1 = a
    · simp [List.map_cons, if_pos hp, List.find?_cons]
    · simp only [List.find?_cons,
        show (decide (p.1 = a)) = false by simpa using hp,
        cond_false] at ha
      simp only [List.map_cons, if_neg hp, List.find?_cons,
        show (decide (p.1 = a)) = false by simpa using hp, cond_false]
      exact ih ha

theorem find_set_ne (h : Heap) (o : Obj) {a b : Nat} (hab : a ≠ b) :
    (h.set a o).find b = h.find b := by
  unfold find set
  exact congrArg (Option.map (·.2)) (find?_update_ne h.objs o hab)

theorem find_set_self (h : Heap) (o : Obj) {a : Nat} {o' : Obj}
    (ha : h.find a = some o') : (h.set a o).find a = some o := by
  unfold find at ha
  unfold find set
  cases hq : h.objs.find? (fun p => p.1 = a) with
  | none => simp [hq] at ha
  | some q =>
    rw [show ({ h with objs := h.objs.map (fun p => if p.1 = a then (a, o) else p) } : Heap).objs
          = h.objs.map (fun p => if p.1 = a then (a, o) else p) from rfl,
        find?_update_self h.objs o q hq]
    rfl

@[simp] theorem set_next (h : Heap) (a : Nat) (o : Obj) :
    (h.set a o).next = h.next := rfl

theorem find_some_lt {h : Heap} (hb : h.bounded) {a : Nat} {o : Obj}
    (hf : h.find a = some o) : a < h.next := by
  unfold find at hf
  cases hq : h.objs.find? (fun p => p.1 = a) with
  | none => simp [hq] at hf
  | some q =>
    have hmem := List.mem_of_find?_eq_some hq
    have hqa : q.1 = a := by simpa using List.find?_some hq
    exact hqa ▸ hb q hmem

end Heap

/-! ## Ordered-dictionary primitives

`OrderedDict.__getitem__` / `__setitem__` / `__delitem__` / `__contains__`
on an entry list: updating an existing key keeps its position, a new key is
appended at the end. -/

def odGet (es : Entries) (k : String) : Option PyVal :=
  (es.find? (fun p => p.1 = k)).map (·.2)

def odMem (es : Entries) (k : String) : Bool :=
  es.any (fun p => p.1 = k)

def odSet (es : Entries) (k : String) (v : PyVal) : Entries :=
  if odMem es k then es.map (fun p => if p.1 = k then (k, v) else p)
  else es ++ [(k, v)]

def odDel (es : Entries) (k : String) : Entries :=
  es.filter (fun p => ¬ p.1 = k)

def odKeys (es : Entries) : List String := es.map (·.1)

@[simp] theorem odGet_nil (k : String) : odGet [] k = none := rfl

@[simp] theorem odMem_nil (k : String) : odMem [] k = false := rfl

@[simp] theorem odGet_cons (p : String × PyVal) (rest : Entries) (k : String) :
    odGet (p :: rest) k = if p.1 = k then some p.2 else odGet rest k := by
  by_cases hp : p.1 = k <;> simp [odGet, List.find?_cons, hp]

@[simp] theorem odMem_cons (p : String × PyVal) (rest : Entries) (k : String) :
    odMem (p :: rest) k = (p.1 = k || odMem rest k) := by
  simp [odMem]

@[simp] theorem odKeys_nil : odKeys [] = [] := rfl

@[simp] theorem odKeys_cons (p : String × PyVal) (rest : Entries) :
    odKeys (p :: rest) = p.1 :: odKeys rest := rfl

theorem map_update_of_not_mem (rest : Entries) {k : String} (v : PyVal)
    (hm : odMem rest k = false) :
    rest.map (fun q => if q.1 = k then (k, v) else q) = rest := by
  induction rest with
  | nil => rfl
  | cons q l ih =>
    simp only [odMem_cons, Bool.or_eq_false_iff, decide_eq_false_iff_not] at hm
    simp only [List.map_cons, if_neg hm.1, ih hm.2]

theorem odMem_eq_isSome (es : Entries) (k : String) :
    odMem es k = (odGet es k).isSome := by
  induction es with
  | nil => rfl
  | cons p rest ih =>
    by_cases hp : p.1 = k <;> simp [hp, ih]

theorem odGet_map_update_ne (rest : Entries) {k k' : String} (v : PyVal)
    (hkk : k ≠ k') :
    odGet (rest.map (fun q => if q.1 = k then (k, v) else q)) k'
      = odGet rest k' := by
  induction rest with
  | nil => rfl
  | cons q l ih =>
    by_cases hq : q.1 = k
    · simp only [List.map_cons, if_pos hq, odGet_cons, if_neg hkk,
        if_neg (fun hh => hkk (hq.symm.trans hh)), ih]
    · simp only [List.map_cons, if_neg hq, odGet_cons]
      by_cases hq' : q.1 = k' <;> simp [hq', ih]

theorem odKeys_map_update (rest : Entries) (k : String) (v : PyVal) :
    odKeys (rest.map (fun q => if q.1 = k then (k, v) else q)) = odKeys rest := by
  induction rest with
  | nil => rfl
  | cons q l ih =>
    by_cases hq : q.1 = k <;> simp [hq, ih]

theorem odSet_cons_ne {p : String × PyVal} (rest : Entries) {k : String}
    (v : PyVal) (hp : ¬ p.1 = k) :
    odSet (p :: rest) k v = p :: odSet rest k v := by
  unfold odSet
  simp only [odMem_cons, show (decide (p.1 = k)) = false by simpa using hp,
    Bool.false_or]
  by_cases hm : odMem rest k
  · simp [hm, if_neg hp]
  · simp [hm, if_neg hp]

theorem odSet_cons_eq {p : String × PyVal} (rest : Entries) {k : String}
    (v : PyVal) (hp : p.1 = k) :
    odSet (p :: rest) k v
      = (k, v) :: rest.map (fun q => if q.1 = k then (k, v) else q) := by
  unfold odSet
  simp [odMem_cons, hp]

@[simp] theorem odSet_nil (k : String) (v : PyVal) :
    odSet [] k v = [(k, v)] := rfl

theorem odSet_cons (p : String × PyVal) (rest : Entries) (k : String)
    (v : PyVal) :
    odSet (p :: rest) k v
      = if p.1 = k then
          (k, v) :: rest.map (fun q => if q.1 = k then (k, v) else q)
        else p :: odSet rest k v := by
  by_cases hp : p.1 = k
  · rw [if_pos hp]; exact odSet_cons_eq rest v hp
  · rw [if_neg hp]; exact odSet_cons_ne rest v hp

theorem odGet_odSet_self (es : Entries) (k : String) (v : PyVal) :
    odGet (odSet es k v) k = some v := by
  induction es with
  | nil => simp
  | cons p rest ih =>
    by_cases hp : p.1 = k
    · rw [odSet_cons_eq rest v hp]; simp
    · rw [odSet_cons_ne rest v hp]; simp [hp, ih]

theorem odGet_odSet_ne (es : Entries) {k k' : String} (v : PyVal)
    (hkk : k ≠ k') : odGet (odSet es k v) k' = odGet es k' := by
  induction es with
  | nil => simp [hkk]
  | cons p rest ih =>
    by_cases hp : p.1 = k
    · rw [odSet_cons_eq rest v hp]
      simp only [odGet_cons, if_neg hkk,
        if_neg (fun hh => hkk (hp.symm.trans hh))]
      exact odGet_map_update_ne rest v hkk
    · rw [odSet_cons_ne rest v hp]
      by_cases hp' : p.1 = k'
      · simp [hp']
      · simp [hp', ih]

theorem odKeys_odSet_of_mem (es : Entries) {k : String} (v : PyVal)
    (hm : odMem es k = true) : odKeys (odSet es k v) = odKeys es := by
  unfold odSet
  simp only [hm, if_true]
  exact odKeys_map_update es k v

theorem odMem_odSet_self (es : Entries) (k : String) (v : PyVal) :
    odMem (odSet es k v) k = true := by
  rw [odMem_eq_isSome, odGet_odSet_self]
  rfl

theorem odMem_odSet_ne (es : Entries) {k k' : String} (v : PyVal)
    (hkk : k ≠ k') : odMem (odSet es k v) k' = odMem es k' := by
  rw [odMem_eq_isSome, odGet_odSet_ne es v hkk, ← odMem_eq_isSome]

/-- Setting a list of entries in order (the copy loop of
`Storage.__getattr__`). -/
def odSetList (es : Entries) : Entries → Entries
  | [] => es
  | (k, v) :: rest => odSetList (odSet es k v) rest

theorem odSetList_append {l : Entries} (hnd : (odKeys l).Nodup) :
    ∀ es : Entries, (∀ k, k ∈ odKeys l → odMem es k = false) →
      odSetList es l = es ++ l := by
  induction l with
  | nil => intro es _; simp [odSetList]
  | cons p rest ih =>
    intro es hdisj
    obtain ⟨k, v⟩ := p
    simp only [odKeys_cons, List.nodup_cons] at hnd
    simp only [odSetList]
    have hset : odSet es k v = es ++ [(k, v)] := by
      unfold odSet
      rw [hdisj k (by simp)]
      simp
    rw [hset, ih hnd.2 (es ++ [(k, v)]) ?_]
    · simp
    · intro k' hk'
      have hne : ¬ k' = k := fun hh => hnd.1 (hh ▸ hk')
      have h1 := hdisj k' (by simp [hk'])
      have hks : ¬ (k = k') := fun hh => hne hh.symm
      unfold odMem at h1 ⊢
      simp [List.any_append, h1, hks]

/-! ## Python-level primitives -/

/-- Python exceptions raised by the modelled code: `KeyError` (with its
argument rendered as a string) and `TypeError`. -/
inductive PyErr where
  | keyError (msg : String)
  | typeError
deriving DecidableEq, Repr

instance {ε α : Type} [DecidableEq ε] [DecidableEq α] :
    DecidableEq (Except ε α) := fun x y =>
  match x, y with
  | .ok a, .ok b =>
    if h : a = b then isTrue (by rw [h]) else isFalse (by simp [h])
  | .error a, .error b =>
    if h : a = b then isTrue (by rw [h]) else isFalse (by simp [h])
  | .ok _, .error _ => isFalse (by simp)
  | .error _, .ok _ => isFalse (by simp)

/-- `key.split(".")` over the string's character list (the separator is
always the single character `"."` in this code): splitting yields one
(possibly empty) piece per run between dots, `dots + 1` pieces in total,
exactly as Python's `str.split`. -/
def splitDotAux (acc : List Char) : List Char → List String
  | [] => [String.mk acc]
  | c :: rest =>
    if c = '.' then String.mk acc :: splitDotAux [] rest
    else splitDotAux (acc ++ [c]) rest

def splitDot (s : String) : List String :=
  splitDotAux [] s.data

/-- Entries of the dict object at address `a` (empty if `a` is not a dict;
callers only use this on dict addresses). -/
def dictEntries (h : Heap) (a : Nat) : Entries :=
  match h.find a with
  | some (.dict es) => es
  | _ => []

/-- Overwrite the dict object at address `a`. -/
def setDict (h : Heap) (a : Nat) (es : Entries) : Heap :=
  h.set a (.dict es)

/-- Python truthiness for the values this program tests (`d if d else …`):
`None`, `0`, `""` and `False` are falsy; a dict is truthy iff non-empty;
`Storage.__len__` returns `len(self.__storage)`, so a `Storage` is truthy
iff its backing dict is non-empty (the backing is always a dict in this
program). -/
def truthy (h : Heap) : PyVal → Bool
  | .none => false
  | .int n => n ≠ 0
  | .str s => s ≠ ""
  | .bool b => b
  | .dict a => ¬ (dictEntries h a).isEmpty
  | .storage a =>
    match h.find a with
    | some (.node st) =>
      match st.storage with
      | .dict b => ¬ (dictEntries h b).isEmpty
      | _ => false
    | _ => false

/-- Python's `sub in s` substring test on strings. -/
def pyStrIn (sub s : String) : Bool :=
  sub = "" || (s.splitOn sub).length ≥ 2

/-- Python's `key in v` as this program uses it: on a dict it tests keys;
`Storage.__contains__` is `item in self.__storage`; on a string it is a
substring test; on `None`, ints and booleans it raises `TypeError`. -/
def pyIn (h : Heap) (k : String) : PyVal → Except PyErr Bool
  | .dict a => .ok (odMem (dictEntries h a) k)
  | .storage a =>
    match h.find a with
    | some (.node st) =>
      match st.storage with
      | .dict b => .ok (odMem (dictEntries h b) k)
      | .str s => .ok (pyStrIn k s)
      | _ => .error .typeError
    | _ => .error .typeError
  | .str s => .ok (pyStrIn k s)
  | _ => .error .typeError

/-! ## `Settings.Storage` -/

/-- The keys of a `Storage` instance `__dict__`: the four name-mangled
attributes assigned in `Storage.__init__` (nothing else is ever added). -/
def storageSlots : List String :=
  ["_Storage__storage", "_Storage__parent", "_Storage__parent_name",
   "_Storage__readonly"]

/-- `Storage.__setattr__` after the slot branch: write into the backing
dict (with the read-only check) and propagate the whole backing mapping to
the parent (`__get_parent` / `__set_parent_value`).  Split out of
`storageSetattr` for reuse in proofs; `parent` is `None` or the parent's
backing dict, and `parent_name` is always a string, in this program. -/
def storageWrite (h : Heap) (st : StorageObj) (key : String) (v : PyVal) :
    Heap × Except PyErr Unit :=
  match st.storage with
  | .dict ba =>
    let h1 := setDict h ba (odSet (dictEntries h ba) key v)
    match st.parent with
    | .none => (h1, .ok ())
    | .dict pa =>
      match st.parentName with
      | .str nm =>
        if nm = "" then (h1, .ok ())
        else (setDict h1 pa (odSet (dictEntries h1 pa) nm st.storage), .ok ())
      | _ => (h1, .ok ())
    | _ => (h1, .error .typeError)
  | _ => (h, .error .typeError)

/-- `Storage.__setattr__` (also `Storage.__setitem__`, which delegates to
it): the four mangled slot names go to `__dict__`; otherwise a read-only
store refuses to overwrite an existing key with
`KeyError("The storage is read only")`, and the value is written into the
backing dict and propagated to the parent. -/
def storageSetattr (h : Heap) (a : Nat) (key : String) (v : PyVal) :
    Heap × Except PyErr Unit :=
  match h.find a with
  | some (.node st) =>
    if key = "_Storage__storage" then
      (h.set a (.node { st with storage := v }), .ok ())
    else if key = "_Storage__parent" then
      (h.set a (.node { st with parent := v }), .ok ())
    else if key = "_Storage__parent_name" then
      (h.set a (.node { st with parentName := v }), .ok ())
    else if key = "_Storage__readonly" then
      (h.set a (.node { st with readonly := v }), .ok ())
    else
      if truthy h st.readonly then
        match st.storage with
        | .dict ba =>
          if odMem (dictEntries h ba) key then
            (h, .error (.keyError "The storage is read only"))
          else storageWrite h st key v
        | _ => (h, .error .typeError)
      else storageWrite h st key v
  | _ => (h, .error .typeError)

/-- The copy loop of `Storage.__getattr__`:
`for key in ret: ret1[key] = ret[key]`, iterating over a snapshot of the
source entries and assigning each through `storageSetattr` on the fresh
node `na`; returns the fresh node.  (The `autowrite` toggling around this
loop only affects file persistence, not the in-memory mapping.) -/
def copyInto (h : Heap) (na : Nat) : Entries → Heap × Except PyErr PyVal
  | [] => (h, .ok (.storage na))
  | (k, v) :: rest =>
    match storageSetattr h na k v with
    | (h1, .ok _) => copyInto h1 na rest
    | (h1, .error e) => (h1, .error e)

/-- `Storage.__getattr__` (also `Storage.__getitem__`, which delegates to
it).  If `item` is absent from the backing dict — or stored as `None` — a
fresh empty child `Storage(parent=backing, parent_name=item)` is created,
inserted into the backing, and returned (auto-vivification; note the child
is created with the default `readonly=False`).  If the stored value is a
plain (ordered) dict, a fresh `Storage` is created the same way and the
entries are copied into it one by one (each copy-assignment also writes
the new backing into the parent at `item`).  Any other stored value is
returned as is. -/
def storageGetattr (h : Heap) (a : Nat) (item : String) :
    Heap × Except PyErr PyVal :=
  match h.find a with
  | some (.node st) =>
    match st.storage with
    | .dict ba =>
      let ret0 := (odGet (dictEntries h ba) item).getD PyVal.none
      if ret0 = PyVal.none then
        let p1 := h.alloc (.dict [])
        let p2 := p1.1.alloc (.node ⟨.dict p1.2, .dict ba, .str item, .bool false⟩)
        let h3 := setDict p2.1 ba (odSet (dictEntries p2.1 ba) item (.storage p2.2))
        (h3, .ok (.storage p2.2))
      else
        match ret0 with
        | .dict da =>
          let p1 := h.alloc (.dict [])
          let p2 := p1.1.alloc (.node ⟨.dict p1.2, .dict ba, .str item, .bool false⟩)
          copyInto p2.1 p2.2 (dictEntries p2.1 da)
        | v => (h, .ok v)
    | _ => (h, .error .typeError)
  | _ => (h, .error .typeError)

/-- `Storage.__delitem__`: a mangled slot name returns silently
(`if key in self.__dict__: return`); otherwise the key is removed from the
backing dict if present. -/
def storageDelitem (h : Heap) (a : Nat) (key : String) :
    Heap × Except PyErr Unit :=
  if key ∈ storageSlots then (h, .ok ())
  else
    match h.find a with
    | some (.node st) =>
      match st.storage with
      | .dict ba =>
        if odMem (dictEntries h ba) key then
          (setDict h ba (odDel (dictEntries h ba) key), .ok ())
        else (h, .ok ())
      | _ => (h, .error .typeError)
    | _ => (h, .error .typeError)

/-- Subscripting `v[k]`: a plain dict raises `KeyError(k)` on a missing
key; `Storage.__getitem__` delegates to `__getattr__`; anything else
raises `TypeError`. -/
def pyGetItem (h : Heap) (v : PyVal) (k : String) :
    Heap × Except PyErr PyVal :=
  match v with
  | .dict a =>
    match odGet (dictEntries h a) k with
    | some x => (h, .ok x)
    | Option.none => (h, .error (.keyError k))
  | .storage a => storageGetattr h a k
  | _ => (h, .error .typeError)

/-- Subscript assignment `v[k] = x`: plain-dict write, or
`Storage.__setitem__` (which delegates to `__setattr__`); anything else
raises `TypeError`. -/
def pySetItem (h : Heap) (v : PyVal) (k : String) (x : PyVal) :
    Heap × Except PyErr Unit :=
  match v with
  | .dict a => (setDict h a (odSet (dictEntries h a) k x), .ok ())
  | .storage a => storageSetattr h a k x
  | _ => (h, .error .typeError)

/-! ## `Settings` -/

/-- The `Settings` façade object: the address of its root `Storage` node
(`_Settings__storage`), the watcher flag (`_Settings__is_watcher_on`), and
the keys of its instance `__dict__` (used by `__delitem__`/`__getattr__`). -/
structure SettingsObj where
  rootNode : Nat
  isWatcherOn : Bool
  attrs : List String
deriving DecidableEq, Repr

/-- The instance `__dict__` keys of a `Settings` built by `__init__` with
the default (watchdog) watcher backend. -/
def settingsAttrs : List String :=
  ["file_name", "autowrite", "_Settings__on_change",
   "_Settings__is_watcher_on", "handler", "observer", "_Settings__storage"]

/-- The recursive helper of `Settings.__getitem__`, on the dot-split
segment list of the key (the source re-joins and re-splits the tail on
`"."`, which traverses exactly the segment list). -/
def getHelper (h : Heap) : List String → PyVal → Heap × Except PyErr PyVal
  | [], _ => (h, .error .typeError)
  | [k], array => pyGetItem h array k
  | k :: rest, array =>
    match pyGetItem h array k with
    | (h1, .ok v) => getHelper h1 rest v
    | (h1, .error e) => (h1, .error e)

/-- `Settings.__getitem__`: watcher off, dotted traversal from the root
node, watcher on.  There is no `try/finally`: when the traversal raises,
the watcher stays disabled in the returned store object. -/
def settingsGetitem (h : Heap) (s : SettingsObj) (item : String) :
    Heap × SettingsObj × Except PyErr PyVal :=
  match getHelper h (splitDot item) (.storage s.rootNode) with
  | (h1, .ok v) => (h1, { s with isWatcherOn := true }, .ok v)
  | (h1, .error e) => (h1, { s with isWatcherOn := false }, .error e)

/-- `Settings.__getattr__`: an instance attribute is returned as is
(modelled as `.ok Option.none`, since such attributes live outside the
store); otherwise watcher off, `self.__storage[item]`, watcher on. -/
def settingsGetattr (h : Heap) (s : SettingsObj) (item : String) :
    Heap × SettingsObj × Except PyErr (Option PyVal) :=
  if item ∈ s.attrs then (h, s, .ok Option.none)
  else
    match storageGetattr h s.rootNode item with
    | (h1, .ok v) => (h1, { s with isWatcherOn := true }, .ok (some v))
    | (h1, .error e) => (h1, { s with isWatcherOn := false }, .error e)

/-- `ret = d if d else OrderedDict()`: keep a truthy value, otherwise a
fresh empty ordered dict. -/
def orFresh (h : Heap) (d : PyVal) : Heap × PyVal :=
  if truthy h d then (h, d)
  else ((h.alloc (.dict [])).1, .dict (h.alloc (.dict [])).2)

/-- The nested-construction helper of `Settings.__setitem__`
(`helper(d, item, val)`), on the dot-split segment list of `item`:
`ret = d if d else OrderedDict()`, then either a direct write at the last
segment or a read-modify-write one level down.  Note the one-level read
`ret[item.split(".")[0]]` raises `KeyError` when `ret` is a plain dict
missing that key. -/
def setHelper (h : Heap) (d : PyVal) (value : PyVal) :
    List String → Heap × Except PyErr PyVal
  | [] => (h, .error .typeError)
  | [k] =>
    match orFresh h d with
    | (h0, ret) =>
      match pySetItem h0 ret k value with
      | (h1, .ok _) => (h1, .ok ret)
      | (h1, .error e) => (h1, .error e)
  | k :: rest =>
    match orFresh h d with
    | (h0, ret) =>
      match pyGetItem h0 ret k with
      | (h1, .ok sub) =>
        match setHelper h1 sub value rest with
        | (h2, .ok built) =>
          match pySetItem h2 ret k built with
          | (h3, .ok _) => (h3, .ok ret)
          | (h3, .error e) => (h3, .error e)
        | (h2, .error e) => (h2, .error e)
      | (h1, .error e) => (h1, .error e)

/-- `Settings.__setitem__`: watcher off; a dotted key reads
`self.__storage[firstSegment]`, runs the nested-construction helper on the
remaining segments, and assigns the result back at the first segment; a
plain key is assigned directly.  Watcher on (only on the non-raising
path — there is no `try/finally`).  The trailing Qt-watcher re-attach block
does not touch the store. -/
def settingsSetitem (h : Heap) (s : SettingsObj) (key : String) (value : PyVal) :
    Heap × SettingsObj × Except PyErr Unit :=
  match splitDot key with
  | [] => (h, { s with isWatcherOn := false }, .error .typeError)
  | [k] =>
    match storageSetattr h s.rootNode k value with
    | (h1, .ok _) => (h1, { s with isWatcherOn := true }, .ok ())
    | (h1, .error e) => (h1, { s with isWatcherOn := false }, .error e)
  | k :: rest =>
    match storageGetattr h s.rootNode k with
    | (h1, .ok sub) =>
      match setHelper h1 sub value rest with
      | (h2, .ok built) =>
        match storageSetattr h2 s.rootNode k built with
        | (h3, .ok _) => (h3, { s with isWatcherOn := true }, .ok ())
        | (h3, .error e) => (h3, { s with isWatcherOn := false }, .error e)
      | (h2, .error e) => (h2, { s with isWatcherOn := false }, .error e)
    | (h1, .error e) => (h1, { s with isWatcherOn := false }, .error e)

/-- `Settings.__delitem__`: an instance-attribute name returns silently;
otherwise, if the key is in the root backing (`Storage.__contains__`),
watcher off, `del self.__storage[key]`, watcher on. -/
def settingsDelitem (h : Heap) (s : SettingsObj) (key : String) :
    Heap × SettingsObj × Except PyErr Unit :=
  if key ∈ s.attrs then (h, s, .ok ())
  else
    match pyIn h key (.storage s.rootNode) with
    | .ok true =>
      match storageDelitem h s.rootNode key with
      | (h1, .ok _) => (h1, { s with isWatcherOn := true }, .ok ())
      | (h1, .error e) => (h1, { s with isWatcherOn := false }, .error e)
    | .ok false => (h, s, .ok ())
    | .error e => (h, s, .error e)

/-- The recursive helper of `Settings.__contains__`:
`d = d if d else OrderedDict()`, then membership of the last segment, or
short-circuit to `False` at the first absent intermediate segment. -/
def containsHelper (h : Heap) (d : PyVal) :
    List String → Heap × Except PyErr Bool
  | [] => (h, .error .typeError)
  | [k] =>
    match orFresh h d with
    | (h0, ret) => (h0, pyIn h0 k ret)
  | k :: rest =>
    match orFresh h d with
    | (h0, ret) =>
      match pyIn h0 k ret with
      | .ok true =>
        match pyGetItem h0 ret k with
        | (h1, .ok v) => containsHelper h1 v rest
        | (h1, .error e) => (h1, .error e)
      | .ok false => (h0, .ok false)
      | .error e => (h0, .error e)

/-- `Settings.__contains__`: membership of a plain key in the root
backing; for a dotted key, membership of the first segment and then the
recursive helper on `self.__storage[firstSegment]`.  The watcher flag is
not touched. -/
def settingsContains (h : Heap) (s : SettingsObj) (item : String) :
    Heap × Except PyErr Bool :=
  match splitDot item with
  | [] => (h, .error .typeError)
  | [k] => (h, pyIn h k (.storage s.rootNode))
  | k :: rest =>
    match pyIn h k (.storage s.rootNode) with
    | .ok true =>
      match storageGetattr h s.rootNode k with
      | (h1, .ok v) => containsHelper h1 v rest
      | (h1, .error e) => (h1, .error e)
    | .ok false => (h, .ok false)
    | .error e => (h, .error e)

/-- `Settings.keys()`: the keys of the root backing dict. -/
def settingsKeys (h : Heap) (s : SettingsObj) : List String :=
  match h.find s.rootNode with
  | some (.node st) =>
    match st.storage with
    | .dict a => odKeys (dictEntries h a)
    | _ => []
  | _ => []

/-- A freshly constructed `Settings` whose backing document holds `es`:
the backing (Json)OrderedDict at address `0`, the root
`Storage(storage, parent=None, parent_name="", readonly=ro)` at address
`1`, watcher armed. -/
def mkStore (es : Entries) (ro : Bool) : Heap × SettingsObj :=
  (⟨[(0, .dict es), (1, .node ⟨.dict 0, .none, .str "", .bool ro⟩)], 2⟩,
   ⟨1, true, settingsAttrs⟩)

/-! ## Structural equality

`PyTree` materializes a value by chasing references; `treeOf` returns
`Option.none` when the fuel runs out, so two values are structurally equal
when some fuel materializes both to the same tree (`Storage.__eq__`
compares the backing mapping). -/

inductive PyTree where
  | none
  | int (n : Int)
  | str (s : String)
  | bool (b : Bool)
  | map (es : List (String × PyTree))

mutual

def treeOf (h : Heap) : Nat → PyVal → Option PyTree
  | 0, _ => Option.none
  | _ + 1, .none => some .none
  | _ + 1, .int n => some (.int n)
  | _ + 1, .str s => some (.str s)
  | _ + 1, .bool b => some (.bool b)
  | n + 1, .dict a =>
    match h.find a with
    | some (.dict es) => (treeOfEntries h n es).map PyTree.map
    | _ => Option.none
  | n + 1, .storage a =>
    match h.find a with
    | some (.node st) =>
      match st.storage with
      | .dict b =>
        match h.find b with
        | some (.dict es) => (treeOfEntries h n es).map PyTree.map
        | _ => Option.none
      | _ => Option.none
    | _ => Option.none

def treeOfEntries (h : Heap) : Nat → Entries → Option (List (String × PyTree))
  | _, [] => some []
  | n, (k, v) :: rest =>
    match treeOf h n v, treeOfEntries h n rest with
    | some t, some ts => some ((k, t) :: ts)
    | _, _ => Option.none

end

/-- Structural equality of two values in a heap (Python `==` via
`Storage.__eq__` / dict equality): some fuel materializes both to the same
tree. -/
def pyStructEq (h : Heap) (v w : PyVal) : Prop :=
  ∃ n t, treeOf h n v = some t ∧ treeOf h n w = some t

/-! ## Claim C10: `delete` cannot touch keys shadowed by instance attributes -/

/-- C10: for a key that names an instance attribute of the store object
(such as `"file_name"`, `"autowrite"`, `"handler"` or `"observer"`),
`Settings.__delitem__` returns silently and changes nothing — neither the
heap nor the store object — even when the key is also present as a stored
key, so such entries cannot be removed through the public delete
operation. -/
theorem delitem_attr_silent_noop (h : Heap) (s : SettingsObj) (key : String)
    (hk : key ∈ s.attrs) : settingsDelitem h s key = (h, s, .ok ()) := by
  simp [settingsDelitem, hk]

/-- Witness for `delitem_attr_silent_noop`: `"file_name"` is an instance
attribute of a freshly built store, and deleting it is a no-op even though
it is present in the backing. -/
theorem delitem_attr_silent_noop_witness :
    "file_name" ∈ (mkStore [("file_name", .int 1)] false).2.attrs ∧
    odMem (dictEntries (mkStore [("file_name", .int 1)] false).1 0)
      "file_name" = true ∧
    settingsDelitem (mkStore [("file_name", .int 1)] false).1
        (mkStore [("file_name", .int 1)] false).2 "file_name"
      = ((mkStore [("file_name", .int 1)] false).1,
         (mkStore [("file_name", .int 1)] false).2, .ok ()) :=
  ⟨by decide, by decide,
   delitem_attr_silent_noop _ _ "file_name" (by decide)⟩

/-! ## Claim C1: a three-segment dotted set raises on missing intermediates -/

/-- C1 (refuting the claim as stated): on a freshly constructed empty
store, `set("a.b.c", 1)` does not complete — it raises `KeyError('b')`.
The nested-construction helper of `__setitem__` replaces the (falsy,
freshly auto-vivified) first-level node by a plain empty `OrderedDict` and
then subscripts it at the missing intermediate key `"b"`, even though its
own docstring promises that a nested dict will be created. -/
theorem set_three_segment_path_raises_keyerror :
    (settingsSetitem (mkStore [] false).1 (mkStore [] false).2 "a.b.c"
        (.int 1)).2.2 = .error (.keyError "b") := by
  decide

/-! ## Claim C4: the watcher flag across get/set/delete -/

/-- C4 (refuting the claim as stated): `get("a.b")` on a store holding
`{"a": 5}` raises `TypeError`, and afterwards the watcher flag is `false`,
not `true` — there is no `try/finally`, so exceptional exits leave the
watcher disabled. -/
theorem watcher_flag_left_disabled_on_raise :
    (settingsGetitem (mkStore [("a", .int 5)] false).1
        (mkStore [("a", .int 5)] false).2 "a.b").2.2
      = .error .typeError ∧
    (settingsGetitem (mkStore [("a", .int 5)] false).1
        (mkStore [("a", .int 5)] false).2 "a.b").2.1.isWatcherOn = false := by
  constructor
  · decide
  · decide

/-- C4 amended: starting from an armed watcher, every public
get/set/delete operation (and attribute read) that returns normally leaves
the watcher flag enabled again; only an exceptional exit leaves it
disabled. -/
theorem watcher_flag_restored_on_normal_return (h : Heap) (s : SettingsObj)
    (key : String) (v : PyVal) (hs : s.isWatcherOn = true) :
    (∀ h1 s1 r, settingsGetitem h s key = (h1, s1, .ok r) →
      s1.isWatcherOn = true) ∧
    (∀ h1 s1 r, settingsSetitem h s key v = (h1, s1, .ok r) →
      s1.isWatcherOn = true) ∧
    (∀ h1 s1 r, settingsDelitem h s key = (h1, s1, .ok r) →
      s1.isWatcherOn = true) ∧
    (∀ h1 s1 r, settingsGetattr h s key = (h1, s1, .ok r) →
      s1.isWatcherOn = true) := by
  refine ⟨?_, ?_, ?_, ?_⟩ <;> intro h1 s1 r heq
  · unfold settingsGetitem at heq
    repeat' split at heq
    all_goals first
      | (exact (congrArg (fun t => t.2.1.isWatcherOn) heq) ▸ rfl)
      | (exact (congrArg (fun t => t.2.1.isWatcherOn) heq) ▸ hs)
      | (exact absurd heq (by simp))
  · unfold settingsSetitem at heq
    repeat' split at heq
    all_goals first
      | (exact (congrArg (fun t => t.2.1.isWatcherOn) heq) ▸ rfl)
      | (exact (congrArg (fun t => t.2.1.isWatcherOn) heq) ▸ hs)
      | (exact absurd heq (by simp))
  · unfold settingsDelitem at heq
    repeat' split at heq
    all_goals first
      | (exact (congrArg (fun t => t.2.1.isWatcherOn) heq) ▸ rfl)
      | (exact (congrArg (fun t => t.2.1.isWatcherOn) heq) ▸ hs)
      | (exact absurd heq (by simp))
  · unfold settingsGetattr at heq
    repeat' split at heq
    all_goals first
      | (exact (congrArg (fun t => t.2.1.isWatcherOn) heq) ▸ rfl)
      | (exact (congrArg (fun t => t.2.1.isWatcherOn) heq) ▸ hs)
      | (exact absurd heq (by simp))

/-- Witness for `watcher_flag_restored_on_normal_return` at a concrete
armed store and a successful read. -/
theorem watcher_flag_restored_witness :
    (settingsGetitem (mkStore [("a", .int 5)] false).1
        (mkStore [("a", .int 5)] false).2 "a").2.1.isWatcherOn = true :=
  (watcher_flag_restored_on_normal_return (mkStore [("a", .int 5)] false).1
      (mkStore [("a", .int 5)] false).2 "a" (.int 0) (by decide)).1
    (settingsGetitem (mkStore [("a", .int 5)] false).1
        (mkStore [("a", .int 5)] false).2 "a").1
    (settingsGetitem (mkStore [("a", .int 5)] false).1
        (mkStore [("a", .int 5)] false).2 "a").2.1
    (.int 5) (by decide)

/-! ## Computation lemmas on freshly built stores -/

@[simp] theorem mkStore_find_zero (es : Entries) (ro : Bool) :
    (mkStore es ro).1.find 0 = some (.dict es) := rfl

@[simp] theorem mkStore_find_one (es : Entries) (ro : Bool) :
    (mkStore es ro).1.find 1
      = some (.node ⟨.dict 0, .none, .str "", .bool ro⟩) := rfl

@[simp] theorem mkStore_rootNode (es : Entries) (ro : Bool) :
    (mkStore es ro).2.rootNode = 1 := rfl

@[simp] theorem mkStore_snd (es : Entries) (ro : Bool) :
    (mkStore es ro).2 = ⟨1, true, settingsAttrs⟩ := rfl

@[simp] theorem mkStore_setDict_zero (es bs : Entries) (ro : Bool) :
    setDict (mkStore es ro).1 0 bs = (mkStore bs ro).1 := rfl

@[simp] theorem dictEntries_mkStore_zero (es : Entries) (ro : Bool) :
    dictEntries (mkStore es ro).1 0 = es := rfl

/-! ## Claim C5: read-only blocks overwrite, not creation -/

/-- C5: in a store constructed with `readonly=true`, a top-level
`set(k, v)` (for a dot-free key that is not one of the four mangled slot
names) raises `KeyError("The storage is read only")` when `k` is already
present in the backing and leaves the backing unchanged, while for an
absent `k` it succeeds and appends `k ↦ v` to the backing. -/
theorem readonly_blocks_overwrite_not_creation (es : Entries) (k : String)
    (v : PyVal) (hk : splitDot k = [k]) (hsl : ¬ k ∈ storageSlots) :
    (odMem es k = true →
      settingsSetitem (mkStore es true).1 (mkStore es true).2 k v
        = ((mkStore es true).1, ⟨1, false, settingsAttrs⟩,
           .error (.keyError "The storage is read only"))) ∧
    (odMem es k = false →
      settingsSetitem (mkStore es true).1 (mkStore es true).2 k v
        = ((mkStore (es ++ [(k, v)]) true).1, ⟨1, true, settingsAttrs⟩,
           .ok ())) := by
  obtain ⟨h1, h2, h3, h4⟩ :
      ¬ k = "_Storage__storage" ∧ ¬ k = "_Storage__parent" ∧
      ¬ k = "_Storage__parent_name" ∧ ¬ k = "_Storage__readonly" := by
    simpa [storageSlots] using hsl
  constructor
  · intro hmem
    simp [settingsSetitem, hk, storageSetattr, h1, h2, h3, h4, truthy,
      dictEntries, hmem]
  · intro hmem
    simp [settingsSetitem, hk, storageSetattr, h1, h2, h3, h4, truthy,
      dictEntries, hmem, storageWrite, odSet]

/-- Witness for `readonly_blocks_overwrite_not_creation` on the read-only
store `{"k": 1}`: overwriting `"k"` raises, creating `"j"` succeeds. -/
theorem readonly_blocks_overwrite_witness :
    settingsSetitem (mkStore [("k", .int 1)] true).1
        (mkStore [("k", .int 1)] true).2 "k" (.int 2)
      = ((mkStore [("k", .int 1)] true).1, ⟨1, false, settingsAttrs⟩,
         .error (.keyError "The storage is read only")) ∧
    settingsSetitem (mkStore [("k", .int 1)] true).1
        (mkStore [("k", .int 1)] true).2 "j" (.int 2)
      = ((mkStore [("k", .int 1), ("j", .int 2)] true).1,
         ⟨1, true, settingsAttrs⟩, .ok ()) :=
  ⟨(readonly_blocks_overwrite_not_creation [("k", .int 1)] "k" (.int 2)
      (by decide) (by decide)).1 (by decide),
   (readonly_blocks_overwrite_not_creation [("k", .int 1)] "j" (.int 2)
      (by decide) (by decide)).2 (by decide)⟩

/-! ## Claim C9: a stored `None` reads back as a fresh empty node -/

/-- C9: after `set(k, None)` (dot-free `k`, not a mangled slot name, on a
writable store), `get(k)` does not return `None`: the read replaces the
stored `None` in the backing by a fresh empty `Storage` node and returns
that node (whose backing dict is empty). -/
theorem set_none_reads_as_fresh_empty_node (es : Entries) (k : String)
    (hk : splitDot k = [k]) (hsl : ¬ k ∈ storageSlots) :
    settingsSetitem (mkStore es false).1 (mkStore es false).2 k .none
      = ((mkStore (odSet es k .none) false).1, ⟨1, true, settingsAttrs⟩,
         .ok ()) ∧
    (∃ h2 n,
      settingsGetitem (mkStore (odSet es k PyVal.none) false).1
          ⟨1, true, settingsAttrs⟩ k
        = (h2, ⟨1, true, settingsAttrs⟩, .ok (.storage n)) ∧
      h2.find n = some (.node ⟨.dict 2, .dict 0, .str k, .bool false⟩) ∧
      dictEntries h2 2 = [] ∧
      odGet (dictEntries h2 0) k = some (.storage n)) := by
  obtain ⟨h1, h2, h3, h4⟩ :
      ¬ k = "_Storage__storage" ∧ ¬ k = "_Storage__parent" ∧
      ¬ k = "_Storage__parent_name" ∧ ¬ k = "_Storage__readonly" := by
    simpa [storageSlots] using hsl
  constructor
  · simp [settingsSetitem, hk, storageSetattr, h1, h2, h3, h4, truthy,
      dictEntries, storageWrite]
  · refine ⟨⟨[(3, .node ⟨.dict 2, .dict 0, .str k, .bool false⟩),
        (2, .dict []),
        (0, .dict (odSet (odSet es k .none) k (.storage 3))),
        (1, .node ⟨.dict 0, .none, .str "", .bool false⟩)], 4⟩, 3,
      ?_, ?_, ?_, ?_⟩
    · simp [settingsGetitem, hk, getHelper, pyGetItem, storageGetattr,
        dictEntries, odGet_odSet_self, mkStore, Heap.alloc, setDict,
        Heap.set, Heap.find]
    · simp [Heap.find]
    · simp [dictEntries, Heap.find]
    · simp [dictEntries, Heap.find, odGet_odSet_self]

/-- Witness for `set_none_reads_as_fresh_empty_node` on an empty store and
key `"k"`. -/
theorem set_none_reads_as_fresh_witness :
    settingsSetitem (mkStore [] false).1 (mkStore [] false).2 "k" .none
      = ((mkStore (odSet [] "k" .none) false).1, ⟨1, true, settingsAttrs⟩,
         .ok ()) ∧
    (∃ h2 n,
      settingsGetitem (mkStore (odSet [] "k" PyVal.none) false).1
          ⟨1, true, settingsAttrs⟩ "k"
        = (h2, ⟨1, true, settingsAttrs⟩, .ok (.storage n)) ∧
      h2.find n = some (.node ⟨.dict 2, .dict 0, .str "k", .bool false⟩) ∧
      dictEntries h2 2 = [] ∧
      odGet (dictEntries h2 0) "k" = some (.storage n)) :=
  set_none_reads_as_fresh_empty_node [] "k" (by decide) (by decide)

/-! ## Claim C2: dotted writes preserve siblings -/

/-- C2: starting from any store in which `"a"` is unset, `set("a.b", v1)`
followed by `set("a.c", v2)` both succeed, and `get("a")` then returns a
`Storage` node whose backing holds exactly `{"b": v1, "c": v2}` — the
second dotted write merges into (rather than drops) the mapping written by
the first. -/
theorem dotted_sibling_preservation (es : Entries) (v1 v2 : PyVal)
    (ha : odMem es "a" = false)
    (h1 : Heap) (s1 : SettingsObj) (r1 : Except PyErr Unit)
    (e1 : settingsSetitem (mkStore es false).1 (mkStore es false).2 "a.b" v1
      = (h1, s1, r1))
    (h2 : Heap) (s2 : SettingsObj) (r2 : Except PyErr Unit)
    (e2 : settingsSetitem h1 s1 "a.c" v2 = (h2, s2, r2)) :
    r1 = .ok () ∧ r2 = .ok () ∧
    ∃ h3 n b, settingsGetitem h2 s2 "a"
        = (h3, { s2 with isWatcherOn := true }, .ok (.storage n)) ∧
      h3.find n = some (.node ⟨.dict b, .dict 0, .str "a", .bool false⟩) ∧
      dictEntries h3 b = [("b", v1), ("c", v2)] := by
  have hget : odGet es "a" = none := by
    rw [odMem_eq_isSome] at ha
    cases hh : odGet es "a" with
    | none => rfl
    | some x => rw [hh] at ha; simp at ha
  have step1 : settingsSetitem (mkStore es false).1 (mkStore es false).2
      "a.b" v1
      = (⟨[(4, .dict [("b", v1)]),
           (3, .node ⟨.dict 2, .dict 0, .str "a", .bool false⟩),
           (2, .dict []),
           (0, .dict (odSet (odSet es "a" (.storage 3)) "a" (.dict 4))),
           (1, .node ⟨.dict 0, .none, .str "", .bool false⟩)], 5⟩,
         ⟨1, true, settingsAttrs⟩, .ok ()) := by
    simp [settingsSetitem, show splitDot "a.b" = ["a", "b"] from rfl,
      storageGetattr, storageSetattr, storageWrite, setHelper, orFresh,
      pySetItem, pyGetItem, truthy, dictEntries, setDict, Heap.alloc,
      Heap.set, Heap.find, mkStore, hget, odGet_odSet_self, odSet_cons,
      odSet_nil]
  rw [step1] at e1
  simp only [Prod.mk.injEq] at e1
  obtain ⟨eh, es1, er⟩ := e1
  subst eh; subst es1; subst er
  have step2 : settingsSetitem
      (⟨[(4, .dict [("b", v1)]),
         (3, .node ⟨.dict 2, .dict 0, .str "a", .bool false⟩),
         (2, .dict []),
         (0, .dict (odSet (odSet es "a" (.storage 3)) "a" (.dict 4))),
         (1, .node ⟨.dict 0, .none, .str "", .bool false⟩)], 5⟩ : Heap)
      (⟨1, true, settingsAttrs⟩ : SettingsObj) "a.c" v2
      = (⟨[(6, .node ⟨.dict 5, .dict 0, .str "a", .bool false⟩),
           (5, .dict [("b", v1), ("c", v2)]),
           (4, .dict [("b", v1)]),
           (3, .node ⟨.dict 2, .dict 0, .str "a", .bool false⟩),
           (2, .dict []),
           (0, .dict (odSet (odSet (odSet
              (odSet (odSet es "a" (.storage 3)) "a" (.dict 4))
              "a" (.dict 5)) "a" (.dict 5)) "a" (.storage 6))),
           (1, .node ⟨.dict 0, .none, .str "", .bool false⟩)], 7⟩,
         ⟨1, true, settingsAttrs⟩, .ok ()) := by
    simp [settingsSetitem, show splitDot "a.c" = ["a", "c"] from rfl,
      storageGetattr, storageSetattr, storageWrite, setHelper, orFresh,
      pySetItem, pyGetItem, copyInto, truthy, dictEntries, setDict,
      Heap.alloc, Heap.set, Heap.find, odGet_odSet_self, odSet_cons,
      odSet_nil]
  rw [step2] at e2
  simp only [Prod.mk.injEq] at e2
  obtain ⟨eh, es2, er⟩ := e2
  subst eh; subst es2; subst er
  refine ⟨rfl, rfl,
    ⟨[(6, .node ⟨.dict 5, .dict 0, .str "a", .bool false⟩),
      (5, .dict [("b", v1), ("c", v2)]),
      (4, .dict [("b", v1)]),
      (3, .node ⟨.dict 2, .dict 0, .str "a", .bool false⟩),
      (2, .dict []),
      (0, .dict (odSet (odSet (odSet
         (odSet (odSet es "a" (.storage 3)) "a" (.dict 4))
         "a" (.dict 5)) "a" (.dict 5)) "a" (.storage 6))),
      (1, .node ⟨.dict 0, .none, .str "", .bool false⟩)], 7⟩, 6, 5,
    ?_, ?_, ?_⟩
  · simp [settingsGetitem, show splitDot "a" = ["a"] from rfl, getHelper,
      pyGetItem, storageGetattr, dictEntries, Heap.find, odGet_odSet_self]
  · simp [Heap.find]
  · simp [dictEntries, Heap.find]

/-- Witness for `dotted_sibling_preservation` from the empty store with
`v1 = 7` and `v2 = 9`. -/
theorem dotted_sibling_preservation_witness :
    (settingsSetitem (mkStore [] false).1 (mkStore [] false).2 "a.b"
      (.int 7)).2.2 = .ok () ∧
    ∃ h3 n b, settingsGetitem
        (settingsSetitem
          (settingsSetitem (mkStore [] false).1 (mkStore [] false).2 "a.b"
            (.int 7)).1
          (settingsSetitem (mkStore [] false).1 (mkStore [] false).2 "a.b"
            (.int 7)).2.1 "a.c" (.int 9)).1
        (settingsSetitem
          (settingsSetitem (mkStore [] false).1 (mkStore [] false).2 "a.b"
            (.int 7)).1
          (settingsSetitem (mkStore [] false).1 (mkStore [] false).2 "a.b"
            (.int 7)).2.1 "a.c" (.int 9)).2.1 "a"
        = (h3, { (settingsSetitem
            (settingsSetitem (mkStore [] false).1 (mkStore [] false).2 "a.b"
              (.int 7)).1
            (settingsSetitem (mkStore [] false).1 (mkStore [] false).2 "a.b"
              (.int 7)).2.1 "a.c" (.int 9)).2.1
            with isWatcherOn := true }, .ok (.storage n)) ∧
      h3.find n = some (.node ⟨.dict b, .dict 0, .str "a", .bool false⟩) ∧
      dictEntries h3 b = [("b", .int 7), ("c", .int 9)] := by
  have happ := dotted_sibling_preservation [] (.int 7) (.int 9) (by decide)
    (settingsSetitem (mkStore [] false).1 (mkStore [] false).2 "a.b"
      (.int 7)).1
    (settingsSetitem (mkStore [] false).1 (mkStore [] false).2 "a.b"
      (.int 7)).2.1
    (settingsSetitem (mkStore [] false).1 (mkStore [] false).2 "a.b"
      (.int 7)).2.2 (by decide)
    (settingsSetitem
      (settingsSetitem (mkStore [] false).1 (mkStore [] false).2 "a.b"
        (.int 7)).1
      (settingsSetitem (mkStore [] false).1 (mkStore [] false).2 "a.b"
        (.int 7)).2.1 "a.c" (.int 9)).1
    (settingsSetitem
      (settingsSetitem (mkStore [] false).1 (mkStore [] false).2 "a.b"
        (.int 7)).1
      (settingsSetitem (mkStore [] false).1 (mkStore [] false).2 "a.b"
        (.int 7)).2.1 "a.c" (.int 9)).2.1
    (settingsSetitem
      (settingsSetitem (mkStore [] false).1 (mkStore [] false).2 "a.b"
        (.int 7)).1
      (settingsSetitem (mkStore [] false).1 (mkStore [] false).2 "a.b"
        (.int 7)).2.1 "a.c" (.int 9)).2.2 (by decide)
  exact ⟨happ.1, happ.2.2⟩

/-! ## A specification for the copy loop of `Storage.__getattr__` -/

theorem bounded_alloc (h : Heap) (o : Obj) (hb : h.bounded) :
    (h.alloc o).1.bounded := by
  intro p hp
  rcases List.mem_cons.mp hp with hp | hp
  · rw [hp]; exact Nat.lt_succ_self _
  · exact Nat.lt_succ_of_lt (hb p hp)

theorem bounded_set (h : Heap) (a : Nat) (o : Obj) (hb : h.bounded) :
    (h.set a o).bounded := by
  intro p hp
  simp only [Heap.set, List.mem_map] at hp
  obtain ⟨q, hq, hpq⟩ := hp
  by_cases hqa : q.1 = a
  · rw [if_pos hqa] at hpq
    rw [← hpq]
    simpa [← hqa] using hb q hq
  · rw [if_neg hqa] at hpq
    rw [← hpq]
    exact hb q hq

theorem map_update_update (rest : Entries) (k : String) (v w : PyVal) :
    (rest.map (fun q => if q.1 = k then (k, v) else q)).map
        (fun q => if q.1 = k then (k, w) else q)
      = rest.map (fun q => if q.1 = k then (k, w) else q) := by
  induction rest with
  | nil => rfl
  | cons q l ih =>
    by_cases hq : q.1 = k <;> simp [hq, ih]

theorem odSet_odSet_self (es : Entries) (k : String) (v w : PyVal) :
    odSet (odSet es k v) k w = odSet es k w := by
  induction es with
  | nil => simp [odSet_cons]
  | cons p rest ih =>
    by_cases hp : p.1 = k
    · rw [odSet_cons_eq rest v hp, odSet_cons_eq _ w rfl,
        odSet_cons_eq rest w hp, map_update_update]
    · rw [odSet_cons_ne rest v hp, odSet_cons_ne _ w hp,
        odSet_cons_ne rest w hp, ih]

theorem odSetList_id_of_nodup {l : Entries} (hnd : (odKeys l).Nodup) :
    odSetList [] l = l := by
  rw [odSetList_append hnd [] (fun k _ => rfl)]
  rfl

/-- What the copy loop of `Storage.__getattr__` does to a freshly created
node `na` (backing `ba`, parent dict `pa` under key `item`, readonly
false), copying the entry list `l`: it succeeds, fills `ba` with the
entries, and (for a non-empty `l` and truthy `item`) re-points
`pa[item]` at the new backing; nothing else changes. -/
theorem copyInto_spec (l : Entries) : ∀ (h : Heap) (na ba pa : Nat)
    (item : String) (bes pes : Entries),
    h.find na = some (.node ⟨.dict ba, .dict pa, .str item, .bool false⟩) →
    h.find ba = some (.dict bes) →
    h.find pa = some (.dict pes) →
    na ≠ ba → na ≠ pa → ba ≠ pa →
    (∀ p ∈ l, ¬ p.1 ∈ storageSlots) →
    ∃ h', copyInto h na l = (h', .ok (.storage na)) ∧
      h'.find na
        = some (.node ⟨.dict ba, .dict pa, .str item, .bool false⟩) ∧
      h'.find ba = some (.dict (odSetList bes l)) ∧
      h'.find pa = some (.dict (if l.isEmpty ∨ item = "" then pes
                                else odSet pes item (.dict ba))) ∧
      (∀ x, x ≠ ba → x ≠ pa → h'.find x = h.find x) ∧
      h'.next = h.next ∧ (h.bounded → h'.bounded) := by
  induction l with
  | nil =>
    intro h na ba pa item bes pes hna hba hpa nb np bp _
    exact ⟨h, rfl, hna, by simpa [odSetList] using hba,
      by simpa using hpa, fun x _ _ => rfl, rfl, fun hb => hb⟩
  | cons p rest ih =>
    intro h na ba pa item bes pes hna hba hpa nb np bp hsl
    obtain ⟨k, v⟩ := p
    obtain ⟨k1, k2, k3, k4⟩ :
        ¬ k = "_Storage__storage" ∧ ¬ k = "_Storage__parent" ∧
        ¬ k = "_Storage__parent_name" ∧ ¬ k = "_Storage__readonly" := by
      simpa [storageSlots] using hsl (k, v) (by simp)
    have hslrest : ∀ q ∈ rest, ¬ q.1 ∈ storageSlots :=
      fun q hq => hsl q (by simp [hq])
    by_cases hit : item = ""
    · -- falsy parent_name: `__get_parent` returns None, no parent write
      have hstep : storageSetattr h na k v
          = (setDict h ba (odSet bes k v), .ok ()) := by
        simp [storageSetattr, hna, k1, k2, k3, k4, truthy, storageWrite,
          dictEntries, hba, hit]
      have hna1 : (setDict h ba (odSet bes k v)).find na
          = some (.node ⟨.dict ba, .dict pa, .str item, .bool false⟩) := by
        rw [setDict, Heap.find_set_ne _ _ (Ne.symm nb)]; exact hna
      have hba1 : (setDict h ba (odSet bes k v)).find ba
          = some (.dict (odSet bes k v)) :=
        Heap.find_set_self _ _ hba
      have hpa1 : (setDict h ba (odSet bes k v)).find pa
          = some (.dict pes) := by
        rw [setDict, Heap.find_set_ne _ _ bp]; exact hpa
      obtain ⟨h', hcopy, cna, cba, cpa, cframe, cnext, cbd⟩ :=
        ih (setDict h ba (odSet bes k v)) na ba pa item (odSet bes k v) pes
          hna1 hba1 hpa1 nb np bp hslrest
      refine ⟨h', ?_, cna, by simpa [odSetList] using cba, ?_, ?_, ?_, ?_⟩
      · simp [copyInto, hstep, hcopy]
      · simpa [hit] using cpa
      · intro x xb xp
        rw [cframe x xb xp, setDict, Heap.find_set_ne _ _ (Ne.symm xb)]
      · simpa using cnext
      · exact fun hb => cbd (bounded_set _ _ _ hb)
    · -- truthy parent_name: the whole backing is written into the parent
      have hstep : storageSetattr h na k v
          = (setDict (setDict h ba (odSet bes k v)) pa
               (odSet pes item (.dict ba)), .ok ()) := by
        have hpa' : (setDict h ba (odSet bes k v)).find pa
            = some (.dict pes) := by
          rw [setDict, Heap.find_set_ne _ _ bp]; exact hpa
        simp [storageSetattr, hna, k1, k2, k3, k4, truthy, storageWrite,
          dictEntries, hba, hit, hpa']
      have hna1 : ((setDict h ba (odSet bes k v)).set pa
            (.dict (odSet pes item (.dict ba)))).find na
          = some (.node ⟨.dict ba, .dict pa, .str item, .bool false⟩) := by
        rw [Heap.find_set_ne _ _ (Ne.symm np), setDict,
          Heap.find_set_ne _ _ (Ne.symm nb)]
        exact hna
      have hba1 : ((setDict h ba (odSet bes k v)).set pa
            (.dict (odSet pes item (.dict ba)))).find ba
          = some (.dict (odSet bes k v)) := by
        rw [Heap.find_set_ne _ _ (Ne.symm bp)]
        exact Heap.find_set_self _ _ hba
      have hmid : (setDict h ba (odSet bes k v)).find pa
          = some (.dict pes) := by
        rw [setDict, Heap.find_set_ne _ _ bp]; exact hpa
      have hpa1 : ((setDict h ba (odSet bes k v)).set pa
            (.dict (odSet pes item (.dict ba)))).find pa
          = some (.dict (odSet pes item (.dict ba))) :=
        Heap.find_set_self _ _ hmid
      obtain ⟨h', hcopy, cna, cba, cpa, cframe, cnext, cbd⟩ :=
        ih (setDict (setDict h ba (odSet bes k v)) pa
              (odSet pes item (.dict ba))) na ba pa item
          (odSet bes k v) (odSet pes item (.dict ba))
          hna1 hba1 hpa1 nb np bp hslrest
      refine ⟨h', ?_, cna, by simpa [odSetList] using cba, ?_, ?_, ?_, ?_⟩
      · simp [copyInto, hstep, hcopy]
      · by_cases hrest : rest.isEmpty = true
        · simpa [hit, hrest] using cpa
        · simpa [hit, hrest, odSet_odSet_self] using cpa
      · intro x xb xp
        rw [cframe x xb xp]
        simp only [setDict]
        rw [Heap.find_set_ne _ _ (Ne.symm xp),
          Heap.find_set_ne _ _ (Ne.symm xb)]
      · simpa using cnext
      · exact fun hb => cbd (bounded_set _ _ _ (bounded_set _ _ _ hb))

/-! ## Claim C3: dot-free set/get round-trip -/

/-- C3 (refuting the claim as stated): `set("k", None)` then `get("k")` on
a fresh empty store returns a `Storage` node (an empty mapping), which is
not structurally equal to the value `None` that was set — the round-trip
fails for `v = None`. -/
theorem set_get_roundtrip_fails_for_none :
    (settingsGetitem
        (settingsSetitem (mkStore [] false).1 (mkStore [] false).2 "k"
          .none).1
        (settingsSetitem (mkStore [] false).1 (mkStore [] false).2 "k"
          .none).2.1 "k").2.2 = .ok (.storage 3) ∧
    ¬ pyStructEq
        (settingsGetitem
          (settingsSetitem (mkStore [] false).1 (mkStore [] false).2 "k"
            .none).1
          (settingsSetitem (mkStore [] false).1 (mkStore [] false).2 "k"
            .none).2.1 "k").1
        (.storage 3) PyVal.none := by
  constructor
  · decide
  · have hh : (settingsGetitem
        (settingsSetitem (mkStore [] false).1 (mkStore [] false).2 "k"
          .none).1
        (settingsSetitem (mkStore [] false).1 (mkStore [] false).2 "k"
          .none).2.1 "k").1
      = ⟨[(3, .node ⟨.dict 2, .dict 0, .str "k", .bool false⟩),
          (2, .dict []), (0, .dict [("k", .storage 3)]),
          (1, .node ⟨.dict 0, .none, .str "", .bool false⟩)], 4⟩ := by
      decide
    rw [hh]
    rintro ⟨n, t, h1, h2⟩
    cases n with
    | zero => simp [treeOf] at h1
    | succ m =>
      have e1 : treeOf (⟨[(3, .node ⟨.dict 2, .dict 0, .str "k", .bool false⟩),
          (2, .dict []), (0, .dict [("k", .storage 3)]),
          (1, .node ⟨.dict 0, .none, .str "", .bool false⟩)], 4⟩ : Heap)
          (m + 1) (.storage 3) = some (.map []) := by
        simp [treeOf, Heap.find, dictEntries, treeOfEntries]
      have e2 : treeOf (⟨[(3, .node ⟨.dict 2, .dict 0, .str "k", .bool false⟩),
          (2, .dict []), (0, .dict [("k", .storage 3)]),
          (1, .node ⟨.dict 0, .none, .str "", .bool false⟩)], 4⟩ : Heap)
          (m + 1) PyVal.none = some PyTree.none := by
        simp [treeOf]
      rw [e1] at h1
      rw [e2] at h2
      injection h1 with h1'
      injection h2 with h2'
      exact PyTree.noConfusion (h1'.trans h2'.symm)

/-- A writable store whose backing holds `es`, together with one further
(ordered) dict object `des` living at address `2`, available as a value to
store. -/
def mkStore2 (es des : Entries) : Heap × SettingsObj :=
  (⟨[(0, .dict es), (1, .node ⟨.dict 0, .none, .str "", .bool false⟩),
     (2, .dict des)], 3⟩,
   ⟨1, true, settingsAttrs⟩)

/-- C3 amended: for a dot-free key `k` (not a mangled slot name) and a
value `v` other than `None`, `set(k, v)` then `get(k)` round-trips: a
non-mapping value is returned identically, and a plain-mapping value is
returned as a fresh `Storage` node whose backing holds exactly the
mapping's entries (which are left intact), i.e. a structurally equal
value.  (For `v = None` the get instead returns a fresh empty node, see
the counterexample and C9.) -/
theorem set_get_roundtrip_amended (es des : Entries) (k : String) (v : PyVal)
    (hk : splitDot k = [k]) (hsl : ¬ k ∈ storageSlots)
    (hv : ¬ v = PyVal.none)
    (hdict : ∀ a, v = PyVal.dict a → a = 2 ∧ ¬ k = "" ∧
      (∀ p ∈ des, ¬ p.1 ∈ storageSlots) ∧ (odKeys des).Nodup) :
    settingsSetitem (mkStore2 es des).1 (mkStore2 es des).2 k v
      = (⟨[(0, .dict (odSet es k v)),
           (1, .node ⟨.dict 0, .none, .str "", .bool false⟩),
           (2, .dict des)], 3⟩, ⟨1, true, settingsAttrs⟩, .ok ()) ∧
    ((∀ a, ¬ v = PyVal.dict a) →
      settingsGetitem
          (⟨[(0, .dict (odSet es k v)),
             (1, .node ⟨.dict 0, .none, .str "", .bool false⟩),
             (2, .dict des)], 3⟩ : Heap) (⟨1, true, settingsAttrs⟩ :
             SettingsObj) k
        = (⟨[(0, .dict (odSet es k v)),
             (1, .node ⟨.dict 0, .none, .str "", .bool false⟩),
             (2, .dict des)], 3⟩, ⟨1, true, settingsAttrs⟩, .ok v)) ∧
    (v = PyVal.dict 2 →
      ∃ h2 n b,
        settingsGetitem
            (⟨[(0, .dict (odSet es k v)),
               (1, .node ⟨.dict 0, .none, .str "", .bool false⟩),
               (2, .dict des)], 3⟩ : Heap) (⟨1, true, settingsAttrs⟩ :
               SettingsObj) k
          = (h2, ⟨1, true, settingsAttrs⟩, .ok (.storage n)) ∧
        h2.find n = some (.node ⟨.dict b, .dict 0, .str k, .bool false⟩) ∧
        dictEntries h2 b = des ∧
        h2.find 2 = some (.dict des)) := by
  obtain ⟨q1, q2, q3, q4⟩ :
      ¬ k = "_Storage__storage" ∧ ¬ k = "_Storage__parent" ∧
      ¬ k = "_Storage__parent_name" ∧ ¬ k = "_Storage__readonly" := by
    simpa [storageSlots] using hsl
  refine ⟨?_, ?_, ?_⟩
  · simp [settingsSetitem, hk, storageSetattr, q1, q2, q3, q4, truthy,
      dictEntries, storageWrite, mkStore2, setDict, Heap.set, Heap.find]
  · intro hnd
    cases v with
    | none => exact absurd rfl hv
    | dict a => exact absurd rfl (hnd a)
    | int n =>
      simp [settingsGetitem, hk, getHelper, pyGetItem, storageGetattr,
        dictEntries, Heap.find, odGet_odSet_self]
    | str s =>
      simp [settingsGetitem, hk, getHelper, pyGetItem, storageGetattr,
        dictEntries, Heap.find, odGet_odSet_self]
    | bool b =>
      simp [settingsGetitem, hk, getHelper, pyGetItem, storageGetattr,
        dictEntries, Heap.find, odGet_odSet_self]
    | storage a =>
      simp [settingsGetitem, hk, getHelper, pyGetItem, storageGetattr,
        dictEntries, Heap.find, odGet_odSet_self]
  · intro hveq
    subst hveq
    obtain ⟨-, hk0, hdsl, hnd⟩ := hdict 2 rfl
    obtain ⟨h', hcopy, cna, cba, cpa, cframe, cnext, cbd⟩ :=
      copyInto_spec des
        (⟨[(4, .node ⟨.dict 3, .dict 0, .str k, .bool false⟩),
           (3, .dict []),
           (0, .dict (odSet es k (.dict 2))),
           (1, .node ⟨.dict 0, .none, .str "", .bool false⟩),
           (2, .dict des)], 5⟩ : Heap) 4 3 0 k [] (odSet es k (.dict 2))
        (by simp [Heap.find]) (by simp [Heap.find]) (by simp [Heap.find])
        (by decide) (by decide) (by decide) hdsl
    have hga : storageGetattr
        (⟨[(0, .dict (odSet es k (.dict 2))),
           (1, .node ⟨.dict 0, .none, .str "", .bool false⟩),
           (2, .dict des)], 3⟩ : Heap) 1 k
        = (h', .ok (.storage 4)) := by
      rw [show storageGetattr
          (⟨[(0, .dict (odSet es k (.dict 2))),
             (1, .node ⟨.dict 0, .none, .str "", .bool false⟩),
             (2, .dict des)], 3⟩ : Heap) 1 k
          = copyInto
            (⟨[(4, .node ⟨.dict 3, .dict 0, .str k, .bool false⟩),
               (3, .dict []),
               (0, .dict (odSet es k (.dict 2))),
               (1, .node ⟨.dict 0, .none, .str "", .bool false⟩),
               (2, .dict des)], 5⟩ : Heap) 4 des from by
        simp [storageGetattr, dictEntries, Heap.find, Heap.alloc,
          odGet_odSet_self]]
      exact hcopy
    refine ⟨h', 4, 3, ?_, cna, ?_, ?_⟩
    · simp [settingsGetitem, hk, getHelper, pyGetItem, hga]
    · rw [dictEntries, cba, odSetList_id_of_nodup hnd]
    · rw [cframe 2 (by decide) (by decide)]
      simp [Heap.find]

/-- Witness for `set_get_roundtrip_amended`, exercising both the scalar
case (`v = 7`) and the mapping case (`v` the dict `{"x": 1}`). -/
theorem set_get_roundtrip_amended_witness :
    settingsGetitem
        (⟨[(0, .dict (odSet [] "p" (.int 7))),
           (1, .node ⟨.dict 0, .none, .str "", .bool false⟩),
           (2, .dict [("x", .int 1)])], 3⟩ : Heap)
        (⟨1, true, settingsAttrs⟩ : SettingsObj) "p"
      = (⟨[(0, .dict (odSet [] "p" (.int 7))),
           (1, .node ⟨.dict 0, .none, .str "", .bool false⟩),
           (2, .dict [("x", .int 1)])], 3⟩, ⟨1, true, settingsAttrs⟩,
         .ok (.int 7)) ∧
    (∃ h2 n b,
      settingsGetitem
          (⟨[(0, .dict (odSet [] "p" (.dict 2))),
             (1, .node ⟨.dict 0, .none, .str "", .bool false⟩),
             (2, .dict [("x", .int 1)])], 3⟩ : Heap)
          (⟨1, true, settingsAttrs⟩ : SettingsObj) "p"
        = (h2, ⟨1, true, settingsAttrs⟩, .ok (.storage n)) ∧
      h2.find n = some (.node ⟨.dict b, .dict 0, .str "p", .bool false⟩) ∧
      dictEntries h2 b = [("x", .int 1)] ∧
      h2.find 2 = some (.dict [("x", .int 1)])) :=
  ⟨(set_get_roundtrip_amended [] [("x", .int 1)] "p" (.int 7) (by decide)
      (by decide) (by decide) (fun a ha => by cases ha)).2.1
      (fun a ha => by cases ha),
   (set_get_roundtrip_amended [] [("x", .int 1)] "p" (.dict 2) (by decide)
      (by decide) (by decide)
      (fun a ha => ⟨by cases ha; rfl, by decide, by decide, by decide⟩)).2.2
      rfl⟩

/-! ## Claim C6: the readonly flag and traversal-created nodes -/

/-- A store constructed with `readonly=true` whose backing holds `es`,
with a nested plain mapping `des` at address `2`. -/
def mkStoreRO (es des : Entries) : Heap × SettingsObj :=
  (⟨[(0, .dict es), (1, .node ⟨.dict 0, .none, .str "", .bool true⟩),
     (2, .dict des)], 3⟩,
   ⟨1, true, settingsAttrs⟩)

/-- C6 (refuting the claim as stated): on the read-only store
`{"foo": {"bar": 1}}`, the nested write `store.foo.bar = 2` does **not**
fail with a read-only violation — the node returned for `store.foo` is
created with `readonly=False` (the flag is not passed on in
`Storage.__getattr__`), so the write succeeds and stores `2`. -/
theorem readonly_not_inherited_counterexample :
    settingsGetattr (mkStoreRO [("foo", .dict 2)] [("bar", .int 1)]).1
        (mkStoreRO [("foo", .dict 2)] [("bar", .int 1)]).2 "foo"
      = (⟨[(4, .node ⟨.dict 3, .dict 0, .str "foo", .bool false⟩),
           (3, .dict [("bar", .int 1)]),
           (0, .dict [("foo", .dict 3)]),
           (1, .node ⟨.dict 0, .none, .str "", .bool true⟩),
           (2, .dict [("bar", .int 1)])], 5⟩,
         ⟨1, true, settingsAttrs⟩, .ok (some (.storage 4))) ∧
    storageSetattr
        (⟨[(4, .node ⟨.dict 3, .dict 0, .str "foo", .bool false⟩),
           (3, .dict [("bar", .int 1)]),
           (0, .dict [("foo", .dict 3)]),
           (1, .node ⟨.dict 0, .none, .str "", .bool true⟩),
           (2, .dict [("bar", .int 1)])], 5⟩ : Heap) 4 "bar" (.int 2)
      = (⟨[(4, .node ⟨.dict 3, .dict 0, .str "foo", .bool false⟩),
           (3, .dict [("bar", .int 2)]),
           (0, .dict [("foo", .dict 3)]),
           (1, .node ⟨.dict 0, .none, .str "", .bool true⟩),
           (2, .dict [("bar", .int 1)])], 5⟩, .ok ()) := by
  constructor
  · decide
  · decide

theorem odSet_ne_nil (es : Entries) (k : String) (v : PyVal) :
    odSet es k v ≠ [] := by
  unfold odSet
  split
  · rename_i hm
    cases es with
    | nil => simp [odMem] at hm
    | cons p t => simp
  · simp

theorem odSetList_ne_nil (l : Entries) : ∀ acc : Entries,
    acc ≠ [] ∨ l ≠ [] → odSetList acc l ≠ [] := by
  induction l with
  | nil =>
    intro acc h
    rcases h with h | h
    · simpa [odSetList] using h
    · exact absurd rfl h
  | cons p rest ih =>
    intro acc _
    obtain ⟨k, v⟩ := p
    simp only [odSetList]
    exact ih (odSet acc k v) (Or.inl (odSet_ne_nil _ _ _))

/-- C6 amended: the readonly flag is *not* inherited.  In a store
constructed with `readonly=true`, the `Storage` node created by traversal
for an existing nested mapping carries `readonly=False`, so the
attribute-path nested write `store.item.k2 = w` succeeds and stores the
value (no read-only violation).  The dotted item-write
`store["item.k2"] = w`, however, still raises
`KeyError("The storage is read only")`: after mutating the nested data
through the non-readonly copy node, `__setitem__`'s final assignment
writes the first segment back through the read-only root, whose
`__setattr__` refuses the existing key. -/
theorem readonly_not_inherited_amended (es des : Entries)
    (key item k' : String) (w : PyVal) (hattr : ¬ item ∈ settingsAttrs)
    (hsp : splitDot key = [item, k']) (hsl : ¬ item ∈ storageSlots)
    (heq : odGet es item = some (.dict 2)) (hit : ¬ item = "")
    (hdsl : ∀ p ∈ des, ¬ p.1 ∈ storageSlots)
    (hk' : ¬ k' ∈ storageSlots) (hmem : odMem des k' = true) :
    ∃ h1 h2,
      settingsGetattr (mkStoreRO es des).1 (mkStoreRO es des).2 item
        = (h1, ⟨1, true, settingsAttrs⟩, .ok (some (.storage 4))) ∧
      h1.find 4 = some (.node ⟨.dict 3, .dict 0, .str item, .bool false⟩) ∧
      storageSetattr h1 4 k' w = (h2, .ok ()) ∧
      odGet (dictEntries h2 3) k' = some w ∧
      settingsSetitem (mkStoreRO es des).1 (mkStoreRO es des).2 key w
        = (h2, ⟨1, false, settingsAttrs⟩,
           .error (.keyError "The storage is read only")) := by
  obtain ⟨q1, q2, q3, q4⟩ :
      ¬ k' = "_Storage__storage" ∧ ¬ k' = "_Storage__parent" ∧
      ¬ k' = "_Storage__parent_name" ∧ ¬ k' = "_Storage__readonly" := by
    simpa [storageSlots] using hk'
  obtain ⟨p1, p2, p3, p4⟩ :
      ¬ item = "_Storage__storage" ∧ ¬ item = "_Storage__parent" ∧
      ¬ item = "_Storage__parent_name" ∧ ¬ item = "_Storage__readonly" := by
    simpa [storageSlots] using hsl
  obtain ⟨h', hcopy, cna, cba, cpa, cframe, cnext, cbd⟩ :=
    copyInto_spec des
      (⟨[(4, .node ⟨.dict 3, .dict 0, .str item, .bool false⟩),
         (3, .dict []),
         (0, .dict es),
         (1, .node ⟨.dict 0, .none, .str "", .bool true⟩),
         (2, .dict des)], 5⟩ : Heap) 4 3 0 item [] es
      (by simp [Heap.find]) (by simp [Heap.find]) (by simp [Heap.find])
      (by decide) (by decide) (by decide) hdsl
  have hga : storageGetattr (mkStoreRO es des).1 1 item
      = (h', .ok (.storage 4)) := by
    rw [show storageGetattr (mkStoreRO es des).1 1 item
        = copyInto
          (⟨[(4, .node ⟨.dict 3, .dict 0, .str item, .bool false⟩),
             (3, .dict []),
             (0, .dict es),
             (1, .node ⟨.dict 0, .none, .str "", .bool true⟩),
             (2, .dict des)], 5⟩ : Heap) 4 des from by
      simp [storageGetattr, dictEntries, Heap.find, Heap.alloc, mkStoreRO,
        heq]]
    exact hcopy
  have hdes : des ≠ [] := by
    intro hc; subst hc; simp [odMem] at hmem
  have hdesE : des.isEmpty = false := by
    cases des with
    | nil => exact absurd rfl hdes
    | cons a t => rfl
  have hif : (if des.isEmpty ∨ item = "" then es
              else odSet es item (.dict 3)) = odSet es item (.dict 3) := by
    rw [if_neg]
    rintro (hc | hc)
    · rw [hdesE] at hc; exact Bool.noConfusion hc
    · exact hit hc
  have h3' : (h'.set 3 (Obj.dict (odSet (odSetList [] des) k' w))).find 0
      = some (.dict (odSet es item (.dict 3))) := by
    rw [Heap.find_set_ne _ _ (by decide : (3 : Nat) ≠ 0), cpa, hif]
  have hset : storageSetattr h' 4 k' w
      = (setDict (setDict h' 3 (odSet (odSetList [] des) k' w)) 0
           (odSet (odSet es item (.dict 3)) item (.dict 3)), .ok ()) := by
    simp [storageSetattr, cna, q1, q2, q3, q4, truthy, storageWrite,
      dictEntries, cba, hit, setDict, h3']
  have hbe' : (odSetList [] des).isEmpty = false := by
    cases hq : odSetList [] des with
    | nil => exact absurd hq (odSetList_ne_nil des [] (Or.inr hdes))
    | cons a t => rfl
  have htr : truthy h' (.storage 4) = true := by
    simp [truthy, cna, dictEntries, cba, hbe']
  have hroot : h'.find 1
      = some (.node ⟨.dict 0, .none, .str "", .bool true⟩) := by
    rw [cframe 1 (by decide) (by decide)]
    simp [Heap.find]
  have h2root : (setDict (setDict h' 3 (odSet (odSetList [] des) k' w)) 0
        (odSet (odSet es item (.dict 3)) item (.dict 3))).find 1
      = some (.node ⟨.dict 0, .none, .str "", .bool true⟩) := by
    simp only [setDict]
    rw [Heap.find_set_ne _ _ (by decide : (0 : Nat) ≠ 1),
      Heap.find_set_ne _ _ (by decide : (3 : Nat) ≠ 1)]
    exact hroot
  have h2zero : (setDict (setDict h' 3 (odSet (odSetList [] des) k' w)) 0
        (odSet (odSet es item (.dict 3)) item (.dict 3))).find 0
      = some (.dict (odSet (odSet es item (.dict 3)) item (.dict 3))) := by
    simp only [setDict]
    exact Heap.find_set_self _ _ h3'
  have hfinal : storageSetattr
        (setDict (setDict h' 3 (odSet (odSetList [] des) k' w)) 0
          (odSet (odSet es item (.dict 3)) item (.dict 3)))
        1 item (.storage 4)
      = (setDict (setDict h' 3 (odSet (odSetList [] des) k' w)) 0
          (odSet (odSet es item (.dict 3)) item (.dict 3)),
         .error (.keyError "The storage is read only")) := by
    simp [storageSetattr, h2root, p1, p2, p3, p4, truthy, dictEntries,
      h2zero, odMem_odSet_self]
  refine ⟨h', _, ?_, cna, hset, ?_, ?_⟩
  · simp [settingsGetattr, show (mkStoreRO es des).2 = ⟨1, true, settingsAttrs⟩
      from rfl, hattr, hga]
  · rw [dictEntries]
    simp only [setDict]
    rw [Heap.find_set_ne _ _ (by decide : (0 : Nat) ≠ 3),
      Heap.find_set_self _ _ cba]
    exact odGet_odSet_self _ _ _
  · simp only [settingsSetitem, hsp,
      show (mkStoreRO es des).2 = ⟨1, true, settingsAttrs⟩ from rfl]
    simp only [hga, setHelper, orFresh, htr, if_true, pySetItem, hset,
      hfinal]

/-- Witness for `readonly_not_inherited_amended` on the read-only store
`{"foo": {"bar": 1}}`: the attribute write `store.foo.bar = 2` succeeds,
while the item write `store["foo.bar"] = 2` raises the read-only
`KeyError` at the final root assignment. -/
theorem readonly_not_inherited_amended_witness :
    ∃ h1 h2,
      settingsGetattr (mkStoreRO [("foo", .dict 2)] [("bar", .int 1)]).1
          (mkStoreRO [("foo", .dict 2)] [("bar", .int 1)]).2 "foo"
        = (h1, ⟨1, true, settingsAttrs⟩, .ok (some (.storage 4))) ∧
      h1.find 4 = some (.node ⟨.dict 3, .dict 0, .str "foo", .bool false⟩) ∧
      storageSetattr h1 4 "bar" (.int 2) = (h2, .ok ()) ∧
      odGet (dictEntries h2 3) "bar" = some (.int 2) ∧
      settingsSetitem (mkStoreRO [("foo", .dict 2)] [("bar", .int 1)]).1
          (mkStoreRO [("foo", .dict 2)] [("bar", .int 1)]).2 "foo.bar"
          (.int 2)
        = (h2, ⟨1, false, settingsAttrs⟩,
           .error (.keyError "The storage is read only")) :=
  readonly_not_inherited_amended [("foo", .dict 2)] [("bar", .int 1)]
    "foo.bar" "foo" "bar" (.int 2) (by decide) (by decide) (by decide)
    (by decide) (by decide) (by decide) (by decide) (by decide)

/-! ## Claim C7: reads of unset paths auto-vivify and never raise -/

/-- `Storage.__getattr__` on a key that is absent from the backing (or
stored as `None`): a fresh empty child node is allocated, inserted into
the backing under the key, and returned. -/
theorem storageGetattr_missing (h : Heap) (n b : Nat) (par pn ro : PyVal)
    (k : String) (es : Entries) (hb : h.bounded)
    (hn : h.find n = some (.node ⟨.dict b, par, pn, ro⟩))
    (hbk : h.find b = some (.dict es))
    (hmiss : (odGet es k).getD PyVal.none = PyVal.none) :
    ∃ h', storageGetattr h n k = (h', .ok (.storage (h.next + 1))) ∧
      h'.find (h.next + 1)
        = some (.node ⟨.dict h.next, .dict b, .str k, .bool false⟩) ∧
      h'.find h.next = some (.dict []) ∧
      h'.find b = some (.dict (odSet es k (.storage (h.next + 1)))) ∧
      (∀ x, x ≠ b → x < h.next → h'.find x = h.find x) ∧
      h'.next = h.next + 2 ∧ h'.bounded := by
  have hblt : b < h.next := Heap.find_some_lt hb hbk
  have hb1 : ((h.alloc (.dict [])).1.alloc
      (.node ⟨.dict h.next, .dict b, .str k, .bool false⟩)).1.bounded :=
    bounded_alloc _ _ (bounded_alloc _ _ hb)
  have hfind2 : ∀ x, x < h.next → ((h.alloc (.dict [])).1.alloc
      (.node ⟨.dict h.next, .dict b, .str k, .bool false⟩)).1.find x
        = h.find x := by
    intro x hx
    rw [Heap.find_alloc_ne _ _ (by omega : x ≠ h.next + 1),
      Heap.find_alloc_ne _ _ (by omega : x ≠ h.next)]
  have hbes : ((h.alloc (.dict [])).1.alloc
      (.node ⟨.dict h.next, .dict b, .str k, .bool false⟩)).1.find b
        = some (.dict es) := by
    rw [hfind2 b hblt]; exact hbk
  refine ⟨setDict ((h.alloc (.dict [])).1.alloc
      (.node ⟨.dict h.next, .dict b, .str k, .bool false⟩)).1 b
      (odSet es k (.storage (h.next + 1))), ?_, ?_, ?_, ?_, ?_, ?_, ?_⟩
  · simp [storageGetattr, hn, dictEntries, hbk, hmiss, hbes, setDict]
  · simp only [setDict]
    rw [Heap.find_set_ne _ _ (by omega : b ≠ h.next + 1)]
    simpa using Heap.find_alloc_self _ _
  · simp only [setDict]
    rw [Heap.find_set_ne _ _ (by omega : b ≠ h.next),
      Heap.find_alloc_ne _ _ (by omega : h.next ≠ h.next + 1)]
    simpa using Heap.find_alloc_self h (.dict [])
  · simp only [setDict]
    exact Heap.find_set_self _ _ hbes
  · intro x hxb hxlt
    simp only [setDict]
    rw [Heap.find_set_ne _ _ (Ne.symm hxb)]
    exact hfind2 x hxlt
  · simp [setDict]
  · exact bounded_set _ _ _ hb1

/-- From a node with an empty backing, any non-empty run of further
segments auto-vivifies fresh empty children, raising nothing. -/
theorem getHelper_fresh (segs : List String) : ∀ (h : Heap) (n b : Nat)
    (par pn ro : PyVal), segs ≠ [] → h.bounded →
    h.find n = some (.node ⟨.dict b, par, pn, ro⟩) →
    h.find b = some (.dict []) →
    ∃ h' n' b' par' pn',
      getHelper h segs (.storage n) = (h', .ok (.storage n')) ∧
      h'.find n' = some (.node ⟨.dict b', par', pn', .bool false⟩) ∧
      h'.find b' = some (.dict []) := by
  induction segs with
  | nil => intro h n b par pn ro hne; exact absurd rfl hne
  | cons k rest ih =>
    intro h n b par pn ro hne hb hn hbk
    obtain ⟨h', hga, hn', hb', hbw, hfr, hnext, hb1⟩ :=
      storageGetattr_missing h n b par pn ro k [] hb hn hbk rfl
    cases rest with
    | nil =>
      refine ⟨h', h.next + 1, h.next, .dict b, .str k, ?_, hn', hb'⟩
      simpa [getHelper, pyGetItem] using hga
    | cons r rs =>
      obtain ⟨h'', n'', b'', par'', pn'', hrec, hn'', hb''⟩ :=
        ih h' (h.next + 1) h.next (.dict b) (.str k) (.bool false)
          (by simp) hb1 hn' hb'
      refine ⟨h'', n'', b'', par'', pn'', ?_, hn'', hb''⟩
      simp only [getHelper, pyGetItem, hga, hrec]

/-- C7: for any store state and any dotted path whose first segment is not
set in the root backing (hence no segment of the path is set at its
successive, freshly created level), `get` raises no exception at any
level, and returns a fresh `Storage` node whose backing is the empty
mapping (structurally equal to `{}`); the watcher flag ends up enabled. -/
theorem get_unset_path_auto_vivifies (h : Heap) (s : SettingsObj)
    (p k : String) (rest : List String) (es : Entries) (rb : Nat)
    (par pn ro : PyVal)
    (hsp : splitDot p = k :: rest) (hb : h.bounded)
    (hroot : h.find s.rootNode = some (.node ⟨.dict rb, par, pn, ro⟩))
    (hes : h.find rb = some (.dict es))
    (hmiss : odMem es k = false) :
    ∃ h' n' b' par' pn',
      settingsGetitem h s p
        = (h', { s with isWatcherOn := true }, .ok (.storage n')) ∧
      h'.find n' = some (.node ⟨.dict b', par', pn', .bool false⟩) ∧
      h'.find b' = some (.dict []) ∧
      treeOf h' 1 (.storage n') = some (.map []) := by
  have hmiss' : (odGet es k).getD PyVal.none = PyVal.none := by
    rw [odMem_eq_isSome] at hmiss
    cases hq : odGet es k with
    | none => rfl
    | some x => rw [hq] at hmiss; simp at hmiss
  obtain ⟨h', hga, hn', hb', hbw, hfr, hnext, hb1⟩ :=
    storageGetattr_missing h s.rootNode rb par pn ro k es hb hroot hes
      hmiss'
  cases rest with
  | nil =>
    refine ⟨h', h.next + 1, h.next, .dict rb, .str k, ?_, hn', hb', ?_⟩
    · simp [settingsGetitem, hsp, getHelper, pyGetItem, hga]
    · simp [treeOf, hn', hb', dictEntries, treeOfEntries]
  | cons r rs =>
    obtain ⟨h'', n'', b'', par'', pn'', hrec, hn'', hb''⟩ :=
      getHelper_fresh (r :: rs) h' (h.next + 1) h.next (.dict rb) (.str k)
        (.bool false) (by simp) hb1 hn' hb'
    refine ⟨h'', n'', b'', par'', pn'', ?_, hn'', hb'', ?_⟩
    · simp [settingsGetitem, hsp, getHelper, pyGetItem, hga, hrec]
    · simp [treeOf, hn'', hb'', dictEntries, treeOfEntries]

/-- Witness for `get_unset_path_auto_vivifies`: `get("a.b.c")` on a fresh
empty store. -/
theorem get_unset_path_auto_vivifies_witness :
    ∃ h' n' b' par' pn',
      settingsGetitem (mkStore [] false).1 (mkStore [] false).2 "a.b.c"
        = (h', { (mkStore [] false).2 with isWatcherOn := true },
           .ok (.storage n')) ∧
      h'.find n' = some (.node ⟨.dict b', par', pn', .bool false⟩) ∧
      h'.find b' = some (.dict []) ∧
      treeOf h' 1 (.storage n') = some (.map []) :=
  get_unset_path_auto_vivifies (mkStore [] false).1 (mkStore [] false).2
    "a.b.c" "a" ["b", "c"] [] 0 .none (.str "") (.bool false)
    (by decide) (by decide) (by decide) (by decide) (by decide)

/-! ## Claim C8: `contains` of an absent path -/

theorem find_next_none {h : Heap} (hb : h.bounded) : h.find h.next = none := by
  unfold Heap.find
  cases hq : h.objs.find? (fun p => p.1 = h.next) with
  | none => rfl
  | some q =>
    have hmem := List.mem_of_find?_eq_some hq
    have hqa : q.1 = h.next := by simpa using List.find?_some hq
    exact absurd (hqa ▸ hb q hmem) (lt_irrefl _)

/-- Entries whose keys avoid the four mangled slot names (what the copy
loop of `Storage.__getattr__` tolerates without touching the instance
`__dict__`). -/
def keysClean (es : Entries) : Bool :=
  es.all (fun p => ¬ p.1 ∈ storageSlots)

/-- The absent-segment condition for `Settings.__contains__`: the dotted
traversal from the entry list `es`, descending through existing
well-formed mapping levels (plain dicts with clean, duplicate-free keys,
or stored `Storage` nodes, or levels that behave as empty — `None` and
falsy scalars), reaches a segment that is absent at its level.  `avoid`
collects the dict addresses that the traversal of the *outer* levels may
write to (the root backing and the backings of stored nodes met on the
way); the levels read here must live outside `avoid`, which keeps this
predicate's view of the heap valid while the traversal copies and
re-points those outer objects. -/
def cabsE (h : Heap) (avoid : List Nat) : Entries → List String → Bool
  | _, [] => false
  | es, [k] => ¬ odMem es k
  | es, k :: rest =>
    if ¬ odMem es k then true
    else
      match odGet es k with
      | some PyVal.none => true
      | some (.int n) => n = 0
      | some (.str s) => s = ""
      | some (.bool bb) => ¬ bb
      | some (.dict da) =>
        if da ∈ avoid then false
        else
          match h.find da with
          | some (.dict des) =>
            keysClean des && decide ((odKeys des).Nodup) &&
            cabsE h avoid des rest
          | _ => false
      | some (.storage m) =>
        match h.find m with
        | some (.node st) =>
          match st.storage with
          | .dict bm =>
            if bm ∈ avoid then false
            else
              match h.find bm with
              | some (.dict bes) => cabsE h (bm :: avoid) bes rest
              | _ => false
          | _ => false
        | _ => false
      | none => false

/-- `cabsE` only inspects objects outside `avoid`, so it is preserved by a
heap change confined to `avoid` (and by growing `avoid` with addresses
that were unallocated). -/
theorem cabsE_true_mono (segs : List String) :
    ∀ (h h' : Heap) (avoid avoid' : List Nat) (es : Entries),
    h.bounded →
    (∀ x ∈ avoid, ∃ ds, h.find x = some (.dict ds)) →
    (∀ x, (∃ o, h.find x = some o) → ¬ x ∈ avoid → h'.find x = h.find x) →
    (∀ x, x ∈ avoid' → x ∈ avoid ∨ h.find x = none) →
    cabsE h avoid es segs = true → cabsE h' avoid' es segs = true := by
  induction segs with
  | nil => intro h h' avoid avoid' es _ _ _ _ habs; simpa [cabsE] using habs
  | cons k rest ih =>
    intro h h' avoid avoid' es hb hsh hfr hav habs
    cases rest with
    | nil => simpa [cabsE] using habs
    | cons r rs =>
      rw [cabsE] at habs ⊢
      by_cases hmem : odMem es k = true
      · rw [if_neg (by simp [hmem])] at habs ⊢
        split at habs
        · exact habs
        · exact habs
        · exact habs
        · exact habs
        · rename_i da hq
          by_cases hda : da ∈ avoid
          · rw [if_pos hda] at habs; exact absurd habs (by simp)
          · rw [if_neg hda] at habs
            split at habs
            · rename_i des hfd
              simp only [Bool.and_eq_true, decide_eq_true_eq] at habs
              obtain ⟨⟨hcl, hnd⟩, hrec⟩ := habs
              have hdaav' : ¬ da ∈ avoid' := by
                intro hmem'
                rcases hav da hmem' with hc | hc
                · exact hda hc
                · rw [hc] at hfd; exact Option.noConfusion hfd
              have hfd' : h'.find da = some (.dict des) := by
                rw [hfr da ⟨_, hfd⟩ hda]; exact hfd
              rw [if_neg hdaav', hfd']
              simp only [Bool.and_eq_true, decide_eq_true_eq]
              exact ⟨⟨hcl, hnd⟩, ih h h' avoid avoid' des hb hsh hfr hav hrec⟩
            · exact absurd habs (by simp)
        · rename_i m hq
          split at habs
          · rename_i st hfm
            split at habs
            · rename_i bm hst
              by_cases hbm : bm ∈ avoid
              · rw [if_pos hbm] at habs; exact absurd habs (by simp)
              · rw [if_neg hbm] at habs
                split at habs
                · rename_i bes hfb
                  have hmav : ¬ m ∈ avoid := by
                    intro hmm
                    obtain ⟨ds, hds⟩ := hsh m hmm
                    rw [hds] at hfm
                    exact Obj.noConfusion (Option.some.inj hfm)
                  have hfm' : h'.find m = some (.node st) := by
                    rw [hfr m ⟨_, hfm⟩ hmav]; exact hfm
                  have hfb' : h'.find bm = some (.dict bes) := by
                    rw [hfr bm ⟨_, hfb⟩ hbm]; exact hfb
                  have hbmav' : ¬ bm ∈ avoid' := by
                    intro hmem'
                    rcases hav bm hmem' with hc | hc
                    · exact hbm hc
                    · rw [hc] at hfb; exact Option.noConfusion hfb
                  simp only [hfm', hst, if_neg hbmav', hfb']
                  refine ih h h' (bm :: avoid) (bm :: avoid') bes hb ?_ ?_ ?_
                    habs
                  · intro x hx
                    rcases List.mem_cons.mp hx with hx | hx
                    · exact ⟨bes, hx ▸ hfb⟩
                    · exact hsh x hx
                  · intro x hex hnx
                    exact hfr x hex (fun hc => hnx (List.mem_cons_of_mem _ hc))
                  · intro x hx
                    rcases List.mem_cons.mp hx with hx | hx
                    · exact Or.inl (hx ▸ List.mem_cons_self _ _)
                    · rcases hav x hx with hc | hc
                      · exact Or.inl (List.mem_cons_of_mem _ hc)
                      · exact Or.inr hc
                · exact absurd habs (by simp)
            · exact absurd habs (by simp)
          · exact absurd habs (by simp)
        · rename_i hq; exact absurd habs (by simp)
      · rw [if_pos (by simp [hmem])] at habs ⊢
      all_goals (intro hfalse; exact List.noConfusion hfalse)

theorem keysClean_iff {es : Entries} :
    keysClean es = true ↔ ∀ p ∈ es, ¬ p.1 ∈ storageSlots := by
  simp [keysClean, List.all_eq_true]

/-- `containsHelper` on a falsy value: `d = d if d else OrderedDict()`
replaces it by a fresh empty dict, in which the next segment is absent. -/
theorem containsHelper_falsy (h : Heap) (v : PyVal) (segs : List String)
    (hf : truthy h v = false) (hne : segs ≠ []) :
    containsHelper h v segs = ((h.alloc (.dict [])).1, .ok false) := by
  have hfind : (h.alloc (Obj.dict [])).1.find h.next = some (Obj.dict []) := by
    simpa using Heap.find_alloc_self h (.dict [])
  cases segs with
  | nil => exact absurd rfl hne
  | cons k rest =>
    cases rest with
    | nil => simp [containsHelper, orFresh, hf, pyIn, dictEntries, hfind]
    | cons r rs =>
      simp [containsHelper, orFresh, hf, pyIn, dictEntries, hfind]

/-- Main induction for `Settings.__contains__` below the first level: on a
`Storage` node whose backing `b` holds `bes`, along a path that is absent
per `cabsE`, the helper returns `False` and raises nothing, and every
pre-existing object keeps its kind — and, for dicts, its key list (the
only writes to old dicts are value-replacements at existing keys). -/
theorem chelper_spec (segs : List String) : ∀ (h : Heap) (n b : Nat)
    (st : StorageObj) (avoid : List Nat) (bes : Entries),
    segs ≠ [] → h.bounded →
    h.find n = some (.node st) → st.storage = .dict b →
    h.find b = some (.dict bes) →
    b ∈ avoid →
    (∀ x ∈ avoid, ∃ ds, h.find x = some (.dict ds)) →
    cabsE h avoid bes segs = true →
    ∃ h', containsHelper h (.storage n) segs = (h', .ok false) ∧
      h'.bounded ∧ h.next ≤ h'.next ∧
      (∀ x o, x < h.next → h.find x = some (.node o) →
        h'.find x = some (.node o)) ∧
      (∀ x ds, x < h.next → h.find x = some (.dict ds) →
        ∃ ds', h'.find x = some (.dict ds') ∧ odKeys ds' = odKeys ds) := by
  induction segs with
  | nil => intro h n b st avoid bes hne; exact absurd rfl hne
  | cons k rest ih =>
    intro h n b st avoid bes hne hb hn hst hbes hbav hsh habs
    by_cases hbe : bes.isEmpty = true
    · -- empty backing: the node is falsy, the fresh dict has no keys
      have hf : truthy h (.storage n) = false := by
        simp [truthy, hn, hst, dictEntries, hbes, hbe]
      rw [containsHelper_falsy h _ _ hf hne]
      refine ⟨_, rfl, bounded_alloc _ _ hb, Nat.le_succ _, ?_, ?_⟩
      · intro x o hx hfx
        rw [Heap.find_alloc_ne _ _ (Nat.ne_of_lt hx)]; exact hfx
      · intro x ds hx hfx
        exact ⟨ds, by rw [Heap.find_alloc_ne _ _ (Nat.ne_of_lt hx)]
                      exact hfx, rfl⟩
    · have hbe' : bes.isEmpty = false := by simpa using hbe
      have ht : truthy h (.storage n) = true := by
        simp [truthy, hn, hst, dictEntries, hbes, hbe']
      cases rest with
      | nil =>
        have hmm : odMem bes k = false := by simpa [cabsE] using habs
        refine ⟨h, ?_, hb, le_refl _, fun x o _ hfx => hfx,
          fun x ds _ hfx => ⟨ds, hfx, rfl⟩⟩
        simp [containsHelper, orFresh, ht, pyIn, hn, hst, dictEntries,
          hbes, hmm]
      | cons r rs =>
        by_cases hmem : odMem bes k = true
        · rw [cabsE] at habs
          case _ => rw [if_neg (by simp [hmem])] at habs
                    split at habs
                    -- value None: replaced by a fresh empty node
                    · rename_i hq
                      obtain ⟨h₂, hga, hn', hb', hbw, hfr, hnext, hb2⟩ :=
                        storageGetattr_missing h n b st.parent st.parentName
                          st.readonly k bes hb (by
                            rw [hn]
                            obtain ⟨s1, s2, s3, s4⟩ := st
                            simp only at hst
                            subst hst
                            rfl) hbes (by rw [hq]; rfl)
                      have hf2 : truthy h₂ (.storage (h.next + 1)) = false := by
                        simp [truthy, hn', hb', dictEntries]
                      have hrec := containsHelper_falsy h₂
                        (.storage (h.next + 1)) (r :: rs) hf2 (by simp)
                      refine ⟨(h₂.alloc (.dict [])).1, ?_,
                        bounded_alloc _ _ hb2, by first | omega | (simp only [Heap.alloc_next, Heap.set_next]; omega), ?_, ?_⟩
                      · simp [containsHelper, orFresh, ht, pyIn, hn, hst,
                          dictEntries, hbes, hmem, pyGetItem, hga, hrec]
                      · intro x o hx hfx
                        have hxb : x ≠ b := by
                          intro hc; rw [hc, hbes] at hfx
                          exact Obj.noConfusion (Option.some.inj hfx)
                        rw [Heap.find_alloc_ne _ _ (by first | omega | (simp only [Heap.alloc_next, Heap.set_next]; omega)),
                          hfr x hxb hx]
                        exact hfx
                      · intro x ds hx hfx
                        by_cases hxb : x = b
                        · subst hxb
                          have hds : ds = bes := by
                            rw [hbes] at hfx
                            exact (Obj.dict.inj (Option.some.inj hfx)).symm
                          subst hds
                          refine ⟨odSet ds k (.storage (h.next + 1)), ?_, ?_⟩
                          · rw [Heap.find_alloc_ne _ _ (by first | omega | (simp only [Heap.alloc_next, Heap.set_next]; omega))]
                            exact hbw
                          · exact odKeys_odSet_of_mem ds _ hmem
                        · refine ⟨ds, ?_, rfl⟩
                          rw [Heap.find_alloc_ne _ _ (by first | omega | (simp only [Heap.alloc_next, Heap.set_next]; omega)),
                            hfr x hxb hx]
                          exact hfx
                    -- falsy int 0
                    · rename_i n₀ hq
                      have hn0 : n₀ = 0 := by simpa using habs
                      subst hn0
                      have hga : storageGetattr h n k = (h, .ok (.int 0)) := by
                        simp [storageGetattr, hn, hst, dictEntries, hbes, hq]
                      have hrec := containsHelper_falsy h (.int 0) (r :: rs)
                        (by simp [truthy]) (by simp)
                      refine ⟨(h.alloc (.dict [])).1, ?_,
                        bounded_alloc _ _ hb, by first | omega | (simp only [Heap.alloc_next, Heap.set_next]; omega), ?_, ?_⟩
                      · simp [containsHelper, orFresh, ht, pyIn, hn, hst,
                          dictEntries, hbes, hmem, pyGetItem, hga, hrec]
                      · intro x o hx hfx
                        rw [Heap.find_alloc_ne _ _ (by first | omega | (simp only [Heap.alloc_next, Heap.set_next]; omega))]; exact hfx
                      · intro x ds hx hfx
                        exact ⟨ds, by rw [Heap.find_alloc_ne _ _ (by first | omega | (simp only [Heap.alloc_next, Heap.set_next]; omega))]
                                      exact hfx, rfl⟩
                    -- falsy empty string
                    · rename_i s₀ hq
                      have hs0 : s₀ = "" := by simpa using habs
                      subst hs0
                      have hga : storageGetattr h n k = (h, .ok (.str "")) := by
                        simp [storageGetattr, hn, hst, dictEntries, hbes, hq]
                      have hrec := containsHelper_falsy h (.str "") (r :: rs)
                        (by simp [truthy]) (by simp)
                      refine ⟨(h.alloc (.dict [])).1, ?_,
                        bounded_alloc _ _ hb, by first | omega | (simp only [Heap.alloc_next, Heap.set_next]; omega), ?_, ?_⟩
                      · simp [containsHelper, orFresh, ht, pyIn, hn, hst,
                          dictEntries, hbes, hmem, pyGetItem, hga, hrec]
                      · intro x o hx hfx
                        rw [Heap.find_alloc_ne _ _ (by first | omega | (simp only [Heap.alloc_next, Heap.set_next]; omega))]; exact hfx
                      · intro x ds hx hfx
                        exact ⟨ds, by rw [Heap.find_alloc_ne _ _ (by first | omega | (simp only [Heap.alloc_next, Heap.set_next]; omega))]
                                      exact hfx, rfl⟩
                    -- falsy boolean
                    · rename_i b₀ hq
                      have hb0 : b₀ = false := by simpa using habs
                      subst hb0
                      have hga : storageGetattr h n k
                          = (h, .ok (.bool false)) := by
                        simp [storageGetattr, hn, hst, dictEntries, hbes, hq]
                      have hrec := containsHelper_falsy h (.bool false)
                        (r :: rs) (by simp [truthy]) (by simp)
                      refine ⟨(h.alloc (.dict [])).1, ?_,
                        bounded_alloc _ _ hb, by first | omega | (simp only [Heap.alloc_next, Heap.set_next]; omega), ?_, ?_⟩
                      · simp [containsHelper, orFresh, ht, pyIn, hn, hst,
                          dictEntries, hbes, hmem, pyGetItem, hga, hrec]
                      · intro x o hx hfx
                        rw [Heap.find_alloc_ne _ _ (by first | omega | (simp only [Heap.alloc_next, Heap.set_next]; omega))]; exact hfx
                      · intro x ds hx hfx
                        exact ⟨ds, by rw [Heap.find_alloc_ne _ _ (by first | omega | (simp only [Heap.alloc_next, Heap.set_next]; omega))]
                                      exact hfx, rfl⟩
                    -- a plain nested dict: wrapped into a fresh node
                    · rename_i da hq
                      by_cases hda : da ∈ avoid
                      · rw [if_pos hda] at habs
                        exact absurd habs (by simp)
                      · rw [if_neg hda] at habs
                        split at habs
                        · rename_i des hfd
                          simp only [Bool.and_eq_true,
                            decide_eq_true_eq] at habs
                          obtain ⟨⟨hcl, hnd⟩, hrec⟩ := habs
                          have hdalt : da < h.next := Heap.find_some_lt hb hfd
                          have hblt : b < h.next := Heap.find_some_lt hb hbes
                          have hA1 : ((h.alloc (.dict [])).1.alloc
                              (.node ⟨.dict h.next, .dict b, .str k,
                                .bool false⟩)).1.find (h.next + 1)
                              = some (.node ⟨.dict h.next, .dict b, .str k,
                                  .bool false⟩) := by
                            simpa using Heap.find_alloc_self _ _
                          have hA2 : ((h.alloc (.dict [])).1.alloc
                              (.node ⟨.dict h.next, .dict b, .str k,
                                .bool false⟩)).1.find h.next
                              = some (.dict []) := by
                            rw [Heap.find_alloc_ne _ _ (by first | omega | (simp only [Heap.alloc_next, Heap.set_next]; omega))]
                            simpa using Heap.find_alloc_self h (.dict [])
                          have hAfr : ∀ x, x < h.next →
                              ((h.alloc (.dict [])).1.alloc
                                (.node ⟨.dict h.next, .dict b, .str k,
                                  .bool false⟩)).1.find x = h.find x := by
                            intro x hx
                            rw [Heap.find_alloc_ne _ _ (by first | omega | (simp only [Heap.alloc_next, Heap.set_next]; omega)),
                              Heap.find_alloc_ne _ _ (by first | omega | (simp only [Heap.alloc_next, Heap.set_next]; omega))]
                          have hAb : ((h.alloc (.dict [])).1.alloc
                              (.node ⟨.dict h.next, .dict b, .str k,
                                .bool false⟩)).1.find b
                              = some (.dict bes) := by
                            rw [hAfr b hblt]; exact hbes
                          have hAda : ((h.alloc (.dict [])).1.alloc
                              (.node ⟨.dict h.next, .dict b, .str k,
                                .bool false⟩)).1.find da
                              = some (.dict des) := by
                            rw [hAfr da hdalt]; exact hfd
                          obtain ⟨h₂, hcopy, cna, cba, cpa, cframe, cnext,
                            cbd⟩ := copyInto_spec des
                              ((h.alloc (.dict [])).1.alloc
                                (.node ⟨.dict h.next, .dict b, .str k,
                                  .bool false⟩)).1
                              (h.next + 1) h.next b k [] bes hA1 hA2 hAb
                              (by first | omega | (simp only [Heap.alloc_next, Heap.set_next]; omega)) (by first | omega | (simp only [Heap.alloc_next, Heap.set_next]; omega)) (by first | omega | (simp only [Heap.alloc_next, Heap.set_next]; omega))
                              (keysClean_iff.mp hcl)
                          have hb2 : h₂.bounded :=
                            cbd (bounded_alloc _ _ (bounded_alloc _ _ hb))
                          have hnext2 : h₂.next = h.next + 2 := by
                            simpa using cnext
                          have hga : storageGetattr h n k
                              = (h₂, .ok (.storage (h.next + 1))) := by
                            rw [show storageGetattr h n k
                                = copyInto ((h.alloc (.dict [])).1.alloc
                                    (.node ⟨.dict h.next, .dict b, .str k,
                                      .bool false⟩)).1 (h.next + 1)
                                    des from by
                              simp [storageGetattr, hn, hst, dictEntries,
                                hbes, hq, hAda]]
                            exact hcopy
                          have hcba' : h₂.find h.next = some (.dict des) := by
                            rw [cba, odSetList_id_of_nodup hnd]
                          have habs₂ : cabsE h₂ (h.next :: avoid) des
                              (r :: rs) = true := by
                            refine cabsE_true_mono (r :: rs) h h₂ avoid
                              (h.next :: avoid) des hb hsh ?_ ?_ hrec
                            · intro x hex hnx
                              obtain ⟨o, ho⟩ := hex
                              have hxlt : x < h.next :=
                                Heap.find_some_lt hb ho
                              rw [cframe x (by first | omega | (simp only [Heap.alloc_next, Heap.set_next]; omega))
                                  (fun hc => hnx (hc ▸ hbav)),
                                hAfr x hxlt]
                            · intro x hx
                              rcases List.mem_cons.mp hx with hx | hx
                              · exact Or.inr (hx ▸ find_next_none hb)
                              · exact Or.inl hx
                          have hsh₂ : ∀ x ∈ h.next :: avoid,
                              ∃ ds, h₂.find x = some (Obj.dict ds) := by
                            intro x hx
                            rcases List.mem_cons.mp hx with hx | hx
                            · exact ⟨des, hx ▸ hcba'⟩
                            · obtain ⟨ds, hds⟩ := hsh x hx
                              by_cases hxb : x = b
                              · subst hxb
                                exact ⟨_, cpa⟩
                              · have hxlt : x < h.next :=
                                  Heap.find_some_lt hb hds
                                refine ⟨ds, ?_⟩
                                rw [cframe x (by first | omega | (simp only [Heap.alloc_next, Heap.set_next]; omega)) hxb, hAfr x hxlt]
                                exact hds
                          obtain ⟨h₃, hch, bd₃, hle₃, npres₃, kpres₃⟩ :=
                            ih h₂ (h.next + 1) h.next
                              ⟨.dict h.next, .dict b, .str k, .bool false⟩
                              (h.next :: avoid) des (by simp) hb2 cna rfl
                              hcba' (List.mem_cons_self _ _) hsh₂ habs₂
                          refine ⟨h₃, ?_, bd₃, by first | omega | (simp only [Heap.alloc_next, Heap.set_next]; omega), ?_, ?_⟩
                          · simp [containsHelper, orFresh, ht, pyIn, hn,
                              hst, dictEntries, hbes, hmem, pyGetItem, hga,
                              hch]
                          · intro x o hx hfx
                            have hxb : x ≠ b := by
                              intro hc; rw [hc, hbes] at hfx
                              exact Obj.noConfusion (Option.some.inj hfx)
                            refine npres₃ x o (by first | omega | (simp only [Heap.alloc_next, Heap.set_next]; omega)) ?_
                            rw [cframe x (by first | omega | (simp only [Heap.alloc_next, Heap.set_next]; omega)) hxb, hAfr x hx]
                            exact hfx
                          · intro x ds hx hfx
                            by_cases hxb : x = b
                            · subst hxb
                              have hds : ds = bes := by
                                rw [hbes] at hfx
                                exact (Obj.dict.inj
                                  (Option.some.inj hfx)).symm
                              subst hds
                              obtain ⟨ds', hds', hkeys⟩ :=
                                kpres₃ x _ (by first | omega | (simp only [Heap.alloc_next, Heap.set_next]; omega)) cpa
                              refine ⟨ds', hds', ?_⟩
                              rw [hkeys]
                              by_cases hie : des.isEmpty = true
                              · simp [hie]
                              · by_cases hke : k = ""
                                · simp [hke]
                                · simp only [hie, hke, or_self,
                                    if_false, Bool.false_eq_true]
                                  exact odKeys_odSet_of_mem _ _ hmem
                            · have hfx₂ : h₂.find x = some (Obj.dict ds) := by
                                rw [cframe x (by first | omega | (simp only [Heap.alloc_next, Heap.set_next]; omega)) hxb, hAfr x hx]
                                exact hfx
                              obtain ⟨ds', hds', hkeys⟩ :=
                                kpres₃ x ds (by first | omega | (simp only [Heap.alloc_next, Heap.set_next]; omega)) hfx₂
                              exact ⟨ds', hds', hkeys⟩
                        · exact absurd habs (by simp)
                    -- a stored Storage node: descend into it
                    · rename_i m hq
                      split at habs
                      · rename_i st₂ hfm
                        split at habs
                        · rename_i bm hst₂
                          by_cases hbm : bm ∈ avoid
                          · rw [if_pos hbm] at habs
                            exact absurd habs (by simp)
                          · rw [if_neg hbm] at habs
                            split at habs
                            · rename_i bes₂ hfb
                              have hga : storageGetattr h n k
                                  = (h, .ok (.storage m)) := by
                                simp [storageGetattr, hn, hst, dictEntries,
                                  hbes, hq]
                              have hsh₂ : ∀ x ∈ bm :: avoid,
                                  ∃ ds, h.find x = some (Obj.dict ds) := by
                                intro x hx
                                rcases List.mem_cons.mp hx with hx | hx
                                · exact ⟨bes₂, hx ▸ hfb⟩
                                · exact hsh x hx
                              obtain ⟨h₃, hch, bd₃, hle₃, npres₃, kpres₃⟩ :=
                                ih h m bm st₂ (bm :: avoid) bes₂ (by simp)
                                  hb hfm hst₂ hfb (List.mem_cons_self _ _)
                                  hsh₂ habs
                              refine ⟨h₃, ?_, bd₃, hle₃, npres₃, kpres₃⟩
                              simp [containsHelper, orFresh, ht, pyIn, hn,
                                hst, dictEntries, hbes, hmem, pyGetItem,
                                hga, hch]
                            · exact absurd habs (by simp)
                        · exact absurd habs (by simp)
                      · exact absurd habs (by simp)
                    -- odGet returned none: contradicts membership
                    · rename_i hq
                      exact absurd habs (by simp)
          case _ => intro hfalse; exact List.noConfusion hfalse
        · -- first remaining segment already absent: short-circuit
          have hmm : odMem bes k = false := by simpa using hmem
          refine ⟨h, ?_, hb, le_refl _, fun x o _ hfx => hfx,
            fun x ds _ hfx => ⟨ds, hfx, rfl⟩⟩
          simp [containsHelper, orFresh, ht, pyIn, hn, hst, dictEntries,
            hbes, hmm]

/-- When the root backing is truthy (non-empty), `Settings.__contains__`
on a dotted or plain key computes exactly what the recursive helper would
compute on the root `Storage` node: the top level inlines the helper's
first iteration (membership of the first segment, then
`self.__storage[itm]`, which is `Storage.__getattr__`). -/
theorem settingsContains_via_helper (h : Heap) (s : SettingsObj)
    (item : String) (segs : List String)
    (hsp : splitDot item = segs) (hne : segs ≠ [])
    (ht : truthy h (.storage s.rootNode) = true) :
    settingsContains h s item = containsHelper h (.storage s.rootNode) segs := by
  cases segs with
  | nil => exact absurd rfl hne
  | cons k rest =>
    cases rest with
    | nil => simp [settingsContains, hsp, containsHelper, orFresh, ht]
    | cons r rs =>
      cases hp : pyIn h k (.storage s.rootNode) with
      | error e =>
        simp [settingsContains, hsp, containsHelper, orFresh, ht, hp]
      | ok bb =>
        cases bb with
        | false =>
          simp [settingsContains, hsp, containsHelper, orFresh, ht, hp]
        | true =>
          cases hg : storageGetattr h s.rootNode k with
          | mk h1 rv =>
            cases rv with
            | error e =>
              simp [settingsContains, hsp, containsHelper, orFresh, ht, hp,
                pyGetItem, hg]
            | ok v =>
              simp [settingsContains, hsp, containsHelper, orFresh, ht, hp,
                pyGetItem, hg]

/-- C8: for a path with an absent segment (`cabsE`), `Settings.__contains__`
returns `False` without raising, and the check does not make the path
appear in `keys()`: the key list of the root backing is unchanged — the
containment check never auto-vivifies at the top level (the traversal
re-points inner plain dicts as `Storage` nodes, but adds no key
anywhere). -/
theorem contains_absent_path_false_no_vivify
    (h : Heap) (s : SettingsObj) (item : String) (segs : List String)
    (st0 : StorageObj) (rb : Nat) (es : Entries)
    (hsp : splitDot item = segs) (hb : h.bounded)
    (hn : h.find s.rootNode = some (.node st0))
    (hst : st0.storage = .dict rb)
    (hes : h.find rb = some (.dict es))
    (habs : cabsE h [rb] es segs = true) :
    ∃ h', settingsContains h s item = (h', .ok false) ∧
      settingsKeys h' s = settingsKeys h s := by
  cases segs with
  | nil => exact absurd habs (by simp [cabsE])
  | cons k rest =>
    by_cases hbe : es.isEmpty = true
    · -- empty root backing: the first segment is already absent and the
      -- top level returns without ever building the fallback dict
      have hee : es = [] := by
        cases es with
        | nil => rfl
        | cons a l => exact absurd hbe (by simp)
      subst hee
      refine ⟨h, ?_, rfl⟩
      cases rest with
      | nil =>
        simp [settingsContains, hsp, pyIn, hn, hst, dictEntries, hes, odMem]
      | cons r rs =>
        simp [settingsContains, hsp, pyIn, hn, hst, dictEntries, hes, odMem]
    · have ht : truthy h (.storage s.rootNode) = true := by
        simp [truthy, hn, hst, dictEntries, hes, hbe]
      rw [settingsContains_via_helper h s item (k :: rest) hsp (by simp) ht]
      obtain ⟨h', hch, bd', hle, npres, kpres⟩ :=
        chelper_spec (k :: rest) h s.rootNode rb st0 [rb] es (by simp) hb
          hn hst hes (List.mem_cons_self _ _)
          (fun x hx => by
            rcases List.mem_cons.mp hx with hx | hx
            · exact ⟨es, hx ▸ hes⟩
            · exact absurd hx (List.not_mem_nil x))
          habs
      have hrlt : s.rootNode < h.next := Heap.find_some_lt hb hn
      have hblt : rb < h.next := Heap.find_some_lt hb hes
      obtain ⟨ds', hds', hkeys⟩ := kpres rb es hblt hes
      refine ⟨h', hch, ?_⟩
      simp [settingsKeys, npres s.rootNode st0 hrlt hn, hn, hst,
        dictEntries, hds', hes, hkeys]

/-- Concrete run of the C8 theorem: store `{"a": {"x": 1}}`, path
`"a.y"` — the second segment is absent; `__contains__` answers `False`
and `keys()` is unchanged. -/
theorem contains_absent_path_false_no_vivify_witness :
    ∃ h', settingsContains
        (⟨[(0, .dict [("a", .dict 2)]),
           (1, .node ⟨.dict 0, .none, .str "", .bool false⟩),
           (2, .dict [("x", .int 1)])], 3⟩ : Heap)
        ⟨1, true, settingsAttrs⟩ "a.y" = (h', .ok false) ∧
      settingsKeys h' ⟨1, true, settingsAttrs⟩ =
        settingsKeys
          (⟨[(0, .dict [("a", .dict 2)]),
             (1, .node ⟨.dict 0, .none, .str "", .bool false⟩),
             (2, .dict [("x", .int 1)])], 3⟩ : Heap)
          ⟨1, true, settingsAttrs⟩ :=
  contains_absent_path_false_no_vivify _ _ "a.y" ["a", "y"]
    ⟨.dict 0, .none, .str "", .bool false⟩ 0 [("a", .dict 2)]
    (by decide) (by decide) rfl rfl rfl (by decide)

end DeepDict
